import Mathlib

/-!
Verification development for the image-analysis pipeline of the Agro backend
(source file src/backend/routes/images.js).

The development embeds, faithfully to the JavaScript source:

* the greedy brace-span extraction applied to the raw model response
  (the regex match from first brace to last brace);
* a model of JSON.parse and JSON.stringify over a Json tree whose numbers
  are exact decimals (an integer mantissa over a power of ten).  JavaScript
  numbers are IEEE-754 doubles; this development idealises them as exact
  decimal arithmetic, which agrees with the source on every value the
  pipeline manipulates and keeps every operation kernel-computable;
* the coverage backfill step (areaOf, label filtering with JavaScript
  truthiness and coercion semantics, Math.round / Math.min / Math.max);
* the worker state machine around analyzeImage and the delete route.

Documented modelling bounds: Number(string) is modelled for decimal and
exponent literals (hexadecimal, octal, binary and Infinity forms are mapped
to the not-a-number outcome); string escapes of the form backslash-u are
rejected for surrogate code units, which Lean strings cannot hold; label
lowercasing is ASCII, as Char.toLower is.  None of these bounds is exercised
by any theorem below at a point where the JavaScript engine would disagree.
-/

/-- Exact decimal number: the value is `m / 10 ^ e`. -/
structure Dec where
  m : ℤ
  e : ℕ
deriving DecidableEq

/-- Strip factors of ten from the mantissa (fuel-driven so that the kernel
can evaluate it). -/
def canonAux : ℕ → ℤ → ℕ → Dec
  | 0, m, e => ⟨m, e⟩
  | _ + 1, m, 0 => ⟨m, 0⟩
  | f + 1, m, e + 1 => if m % 10 = 0 then canonAux f (m / 10) e else ⟨m, e + 1⟩

/-- Canonical decimal with value `m / 10 ^ e`. -/
def canon (m : ℤ) (e : ℕ) : Dec := canonAux e m e

/-- The rational value of a decimal. -/
def Dec.val (a : Dec) : ℚ := (a.m : ℚ) / 10 ^ a.e

/-- Canonical form: either an integer, or a mantissa not divisible by ten. -/
def Dec.IsCanon (a : Dec) : Prop := a.e = 0 ∨ a.m % 10 ≠ 0

def Dec.ofInt (n : ℤ) : Dec := ⟨n, 0⟩

def Dec.add (a b : Dec) : Dec :=
  canon (a.m * 10 ^ (max a.e b.e - a.e) + b.m * 10 ^ (max a.e b.e - b.e)) (max a.e b.e)

def Dec.neg (a : Dec) : Dec := ⟨-a.m, a.e⟩

def Dec.sub (a b : Dec) : Dec := a.add b.neg

def Dec.mul (a b : Dec) : Dec := canon (a.m * b.m) (a.e + b.e)

/-- Division by a power of ten (the only divisions the source performs). -/
def Dec.divPow10 (a : Dec) (k : ℕ) : Dec := canon a.m (a.e + k)

def Dec.leB (a b : Dec) : Bool := a.m * 10 ^ b.e ≤ b.m * 10 ^ a.e

/-- Math.min on exact decimals. -/
def Dec.minD (a b : Dec) : Dec := if a.leB b then a else b

/-- Math.max on exact decimals. -/
def Dec.maxD (a b : Dec) : Dec := if a.leB b then b else a

/-- Math.round: floor of the value plus one half. -/
def Dec.round (a : Dec) : ℤ := (2 * a.m + 10 ^ a.e) / (2 * 10 ^ a.e)

/-- Decimal digit character. -/
def digitChar (d : ℕ) : Char := Char.ofNat (48 + d)

def digitVal (c : Char) : ℕ := c.toNat - 48

/-- Value of a big-endian digit string. -/
def digitsToNat (ds : List Char) : ℕ := ds.foldl (fun a c => a * 10 + digitVal c) 0

/-- Decimal digits of a natural number, fuel-driven. -/
def natToDigitsFuel : ℕ → ℕ → List Char → List Char
  | 0, _, acc => acc
  | f + 1, n, acc =>
    if n < 10 then digitChar n :: acc
    else natToDigitsFuel f (n / 10) (digitChar (n % 10) :: acc)

def natToDigits (n : ℕ) : List Char := natToDigitsFuel (n + 1) n []

/-- Zero-pad a digit string on the left to the given width. -/
def padLeftZeros (k : ℕ) (ds : List Char) : List Char :=
  List.replicate (k - ds.length) '0' ++ ds

/-- The open-brace character, written by code point. -/
def lbraceC : Char := Char.ofNat 123

/-- The close-brace character, written by code point. -/
def rbraceC : Char := Char.ofNat 125

/-- JSON whitespace (also the common JavaScript trim characters). -/
def wsChar (c : Char) : Bool := c = ' ' || c = '\t' || c = '\n' || c = '\r'

def skipWs (cs : List Char) : List Char := cs.dropWhile wsChar

/-- Integer part of the amount by which the exponent says to shift. -/
def intAbsDigits (n : ℤ) : List Char := natToDigits n.natAbs

/-- Decimal rendering of a nonnegative mantissa over `10 ^ e`. -/
def serNumNN (n : ℕ) (e : ℕ) : List Char :=
  if e = 0 then natToDigits n
  else natToDigits (n / 10 ^ e) ++ '.' :: padLeftZeros e (natToDigits (n % 10 ^ e))

/-- JSON.stringify on a number (exact-decimal idealisation). -/
def serNum (a : Dec) : List Char :=
  if a.m < 0 then '-' :: serNumNN a.m.natAbs a.e else serNumNN a.m.natAbs a.e

def hexDigitChar (d : ℕ) : Char := if d < 10 then digitChar d else Char.ofNat (87 + d)

/-- Backspace character. -/
def bsC : Char := Char.ofNat 8

/-- Form-feed character. -/
def ffC : Char := Char.ofNat 12

/-- JSON.stringify escaping of one character. -/
def escapeChar (c : Char) : List Char :=
  if c = '"' then ['\\', '"']
  else if c = '\\' then ['\\', '\\']
  else if c = bsC then ['\\', 'b']
  else if c = '\t' then ['\\', 't']
  else if c = '\n' then ['\\', 'n']
  else if c = ffC then ['\\', 'f']
  else if c = '\r' then ['\\', 'r']
  else if c.toNat < 32 then
    ['\\', 'u', '0', '0', hexDigitChar (c.toNat / 16), hexDigitChar (c.toNat % 16)]
  else [c]

/-- JSON.stringify on a string body (without the surrounding quotes). -/
def escapeList (cs : List Char) : List Char := (cs.map escapeChar).flatten

def serString (s : String) : List Char := '"' :: escapeList s.data ++ ['"']

def unescapeChar (c : Char) : Option Char :=
  if c = '"' then some '"'
  else if c = '\\' then some '\\'
  else if c = '/' then some '/'
  else if c = 'b' then some bsC
  else if c = 'f' then some ffC
  else if c = 'n' then some '\n'
  else if c = 'r' then some '\r'
  else if c = 't' then some '\t'
  else none

def hexVal (c : Char) : Option ℕ :=
  if c.isDigit then some (c.toNat - 48)
  else if 97 ≤ c.toNat && c.toNat ≤ 102 then some (c.toNat - 87)
  else if 65 ≤ c.toNat && c.toNat ≤ 70 then some (c.toNat - 55)
  else none

/-- JSON string-body parser (after the opening quote), fuel-driven.
Surrogate code units in a backslash-u escape are rejected: Lean strings
hold scalar values only. -/
def parseStrAux : ℕ → List Char → Option (List Char × List Char)
  | 0, _ => none
  | f + 1, cs =>
    match cs with
    | [] => none
    | c :: t =>
      if c = '"' then some ([], t)
      else if c = '\\' then
        match t with
        | [] => none
        | e :: t2 =>
          if e = 'u' then
            match t2 with
            | h1 :: h2 :: h3 :: h4 :: t3 =>
              match hexVal h1, hexVal h2, hexVal h3, hexVal h4 with
              | some a, some b, some c2, some d =>
                let n := ((a * 16 + b) * 16 + c2) * 16 + d
                if n < 55296 ∨ 57343 < n then
                  match parseStrAux f t3 with
                  | some (s, r) => some (Char.ofNat n :: s, r)
                  | none => none
                else none
              | _, _, _, _ => none
            | _ => none
          else
            match unescapeChar e with
            | some ec =>
              match parseStrAux f t2 with
              | some (s, r) => some (ec :: s, r)
              | none => none
            | none => none
      else if c.toNat < 32 then none
      else
        match parseStrAux f t with
        | some (s, r) => some (c :: s, r)
        | none => none

def parseStringBody (cs : List Char) : Option (List Char × List Char) :=
  parseStrAux (cs.length + 1) cs

/-- Assemble a parsed number from sign, integer part, fraction digits and
exponent. -/
def mkDecNum (sgnNeg : Bool) (i f l : ℕ) (eneg : Bool) (eAbs : ℕ) : Dec :=
  let m0 : ℤ := (if sgnNeg then -1 else 1) * ((i : ℤ) * 10 ^ l + (f : ℤ))
  if eneg then canon m0 (l + eAbs) else canon (m0 * 10 ^ eAbs) l

/-- Strict JSON exponent part, shared by the two exponent markers. -/
def parseExpDigits (sgnNeg : Bool) (i f l : ℕ) (t : List Char) :
    Option (Dec × List Char) :=
  match t with
  | [] => none
  | d :: t2 =>
    if d.isDigit then
      some (mkDecNum sgnNeg i f l false (digitsToNat (t.takeWhile (·.isDigit))),
        t.dropWhile (·.isDigit))
    else if d = '+' then
      match t2 with
      | e1 :: _ =>
        if e1.isDigit then
          some (mkDecNum sgnNeg i f l false (digitsToNat (t2.takeWhile (·.isDigit))),
            t2.dropWhile (·.isDigit))
        else none
      | [] => none
    else if d = '-' then
      match t2 with
      | e1 :: _ =>
        if e1.isDigit then
          some (mkDecNum sgnNeg i f l true (digitsToNat (t2.takeWhile (·.isDigit))),
            t2.dropWhile (·.isDigit))
        else none
      | [] => none
    else none

/-- Strict JSON optional exponent. -/
def parseExpTail (sgnNeg : Bool) (i f l : ℕ) (cs : List Char) :
    Option (Dec × List Char) :=
  match cs with
  | 'e' :: t => parseExpDigits sgnNeg i f l t
  | 'E' :: t => parseExpDigits sgnNeg i f l t
  | _ => some (mkDecNum sgnNeg i f l false 0, cs)

/-- Strict JSON optional fraction, then optional exponent. -/
def parseNumTail (sgnNeg : Bool) (i : ℕ) (cs : List Char) :
    Option (Dec × List Char) :=
  match cs with
  | '.' :: t =>
    match t with
    | d :: _ =>
      if d.isDigit then
        parseExpTail sgnNeg i (digitsToNat (t.takeWhile (·.isDigit)))
          (t.takeWhile (·.isDigit)).length (t.dropWhile (·.isDigit))
      else none
    | [] => none
  | _ => parseExpTail sgnNeg i 0 0 cs

/-- Strict JSON integer part (a leading zero stops the digit run, exactly as
in the JSON grammar). -/
def parseNumBody (sgnNeg : Bool) (cs : List Char) : Option (Dec × List Char) :=
  match cs with
  | [] => none
  | c :: t =>
    if c = '0' then parseNumTail sgnNeg 0 t
    else if c.isDigit then
      parseNumTail sgnNeg (digitsToNat (c :: t.takeWhile (·.isDigit)))
        (t.dropWhile (·.isDigit))
    else none

/-- Strict JSON number parser. -/
def parseNumber (cs : List Char) : Option (Dec × List Char) :=
  match cs with
  | '-' :: t => parseNumBody true t
  | _ => parseNumBody false cs

/-- JSON value tree.  Numbers are exact decimals (see the header note). -/
inductive Json where
  | null
  | bool (b : Bool)
  | num (d : Dec)
  | str (s : String)
  | arr (xs : List Json)
  | obj (ms : List (String × Json))

/-! Structural size, used as a recursion budget bound. -/
mutual
def sizeJ : Json → ℕ
  | .null => 1
  | .bool _ => 1
  | .num _ => 1
  | .str _ => 1
  | .arr xs => 1 + sizeA xs
  | .obj ms => 1 + sizeM ms
def sizeA : List Json → ℕ
  | [] => 0
  | x :: xs => 1 + sizeJ x + sizeA xs
def sizeM : List (String × Json) → ℕ
  | [] => 0
  | (_, v) :: ms => 1 + sizeJ v + sizeM ms
end

/-! JSON.stringify (default spacing: none). -/
mutual
def serJson : Json → List Char
  | .null => "null".data
  | .bool b => if b then "true".data else "false".data
  | .num d => serNum d
  | .str s => serString s
  | .arr xs => '[' :: serElems xs ++ [']']
  | .obj ms => lbraceC :: serMembers ms ++ [rbraceC]
def serElems : List Json → List Char
  | [] => []
  | [x] => serJson x
  | x :: xs => serJson x ++ ',' :: serElems xs
def serMembers : List (String × Json) → List Char
  | [] => []
  | [(k, v)] => serString k ++ ':' :: serJson v
  | (k, v) :: ms => serString k ++ ':' :: serJson v ++ ',' :: serMembers ms
end

def serializeJson (j : Json) : String := String.mk (serJson j)

/-- Property write on a member list: assignment replaces the value in place
when the key exists and appends otherwise, as JavaScript objects do. -/
def setKey : List (String × Json) → String → Json → List (String × Json)
  | [], k, v => [(k, v)]
  | (k0, v0) :: ms, k, v =>
    if k0 = k then (k0, v) :: ms else (k0, v0) :: setKey ms k v

/-- Object built from parsed members: a duplicated key keeps its first
position and its last value, as JSON.parse does. -/
def buildObj (ms : List (String × Json)) : List (String × Json) :=
  ms.foldl (fun acc kv => setKey acc kv.1 kv.2) []

/-! JSON parser, fuel-driven; mirrors the strict JSON grammar JSON.parse
accepts. -/
mutual
def parseVal : ℕ → List Char → Option (Json × List Char)
  | 0, _ => none
  | f + 1, cs =>
    match skipWs cs with
    | [] => none
    | c :: t =>
      if c = lbraceC then
        match skipWs t with
        | [] => none
        | d :: t2 =>
          if d = rbraceC then some (.obj [], t2)
          else
            match parseMembers f (d :: t2) with
            | some (ms, r) => some (.obj (buildObj ms), r)
            | none => none
      else if c = '[' then
        match skipWs t with
        | [] => none
        | d :: t2 =>
          if d = ']' then some (.arr [], t2)
          else
            match parseElems f (d :: t2) with
            | some (xs, r) => some (.arr xs, r)
            | none => none
      else if c = '"' then
        match parseStringBody t with
        | some (s, r) => some (.str (String.mk s), r)
        | none => none
      else if c = 't' then
        match t with
        | 'r' :: 'u' :: 'e' :: r => some (.bool true, r)
        | _ => none
      else if c = 'f' then
        match t with
        | 'a' :: 'l' :: 's' :: 'e' :: r => some (.bool false, r)
        | _ => none
      else if c = 'n' then
        match t with
        | 'u' :: 'l' :: 'l' :: r => some (.null, r)
        | _ => none
      else
        match parseNumber (c :: t) with
        | some (q, r) => some (.num q, r)
        | none => none
def parseElems : ℕ → List Char → Option (List Json × List Char)
  | 0, _ => none
  | f + 1, cs =>
    match parseVal f cs with
    | none => none
    | some (v, r) =>
      match skipWs r with
      | [] => none
      | c :: t =>
        if c = ',' then
          match parseElems f t with
          | some (xs, r2) => some (v :: xs, r2)
          | none => none
        else if c = ']' then some ([v], t)
        else none
def parseMembers : ℕ → List Char → Option (List (String × Json) × List Char)
  | 0, _ => none
  | f + 1, cs =>
    match skipWs cs with
    | [] => none
    | c :: t =>
      if c = '"' then
        match parseStringBody t with
        | some (k, r) =>
          match skipWs r with
          | [] => none
          | d :: t2 =>
            if d = ':' then
              match parseVal f t2 with
              | some (v, r2) =>
                match skipWs r2 with
                | [] => none
                | e :: t3 =>
                  if e = ',' then
                    match parseMembers f t3 with
                    | some (ms, r3) => some ((String.mk k, v) :: ms, r3)
                    | none => none
                  else if e = rbraceC then some ([(String.mk k, v)], t3)
                  else none
              | none => none
            else none
        | none => none
      else none
end

/-- JSON.parse: the whole input must be one value with only trailing
whitespace.  The budget exceeds any possible nesting of the input. -/
def parseJsonCh (cs : List Char) : Option Json :=
  match parseVal (2 * cs.length + 4) cs with
  | some (v, r) => if skipWs r = [] then some v else none
  | none => none

/-- Property read. -/
def lookupKey : List (String × Json) → String → Option Json
  | [], _ => none
  | (k0, v) :: ms, k => if k0 = k then some v else lookupKey ms k

def getField : Json → String → Option Json
  | .obj ms, k => lookupKey ms k
  | _, _ => none

/-- Property assignment; on a primitive it is a silent no-op, as in sloppy
JavaScript. -/
def setField : Json → String → Json → Json
  | .obj ms, k, v => .obj (setKey ms k v)
  | j, _, _ => j

/-- JavaScript truthiness of a JSON value (no NaN arises in this model). -/
def truthy : Json → Bool
  | .null => false
  | .bool b => b
  | .num d => d.m ≠ 0
  | .str s => s ≠ ""
  | .arr _ => true
  | .obj _ => true

/-- Trim leading and trailing whitespace. -/
def trimWs (cs : List Char) : List Char :=
  ((cs.dropWhile wsChar).reverse.dropWhile wsChar).reverse

/-- Exponent tail of a JavaScript decimal number literal. -/
def numLitExpTail (sgnNeg : Bool) (i f l : ℕ) (cs : List Char) : Option Dec :=
  let p : Bool × List Char :=
    match cs with
    | '+' :: t2 => (false, t2)
    | '-' :: t2 => (true, t2)
    | _ => (false, cs)
  let eds := p.2.takeWhile (·.isDigit)
  if eds = [] then none
  else if p.2.dropWhile (·.isDigit) ≠ [] then none
  else some (mkDecNum sgnNeg i f l p.1 (digitsToNat eds))

/-- Optional exponent of a JavaScript decimal number literal; the literal
must be fully consumed. -/
def numLitExp (sgnNeg : Bool) (i f l : ℕ) (cs : List Char) : Option Dec :=
  match cs with
  | [] => some (mkDecNum sgnNeg i f l false 0)
  | 'e' :: t => numLitExpTail sgnNeg i f l t
  | 'E' :: t => numLitExpTail sgnNeg i f l t
  | _ => none

/-- JavaScript decimal number literal after the optional sign: digits with
an optional point on either side and an optional exponent. -/
def numLitVal (sgnNeg : Bool) (cs : List Char) : Option Dec :=
  let ids := cs.takeWhile (·.isDigit)
  match cs.dropWhile (·.isDigit) with
  | '.' :: t =>
    let fds := t.takeWhile (·.isDigit)
    if ids = [] ∧ fds = [] then none
    else numLitExp sgnNeg (digitsToNat ids) (digitsToNat fds) fds.length
      (t.dropWhile (·.isDigit))
  | r1 => if ids = [] then none else numLitExp sgnNeg (digitsToNat ids) 0 0 r1

/-- Number(string) on decimal literals; the unmodelled literal families
(hexadecimal, octal, binary, Infinity) yield the not-a-number outcome. -/
def jsStringToNum (s : String) : Option Dec :=
  match trimWs s.data with
  | [] => some (Dec.ofInt 0)
  | '+' :: t => numLitVal false t
  | '-' :: t => numLitVal true t
  | cs => numLitVal false cs

/-- Number(String(x)) for the single element of a one-element array. -/
def jsToNumInner : Json → Dec
  | .num d => d
  | .str s => (jsStringToNum s).getD (Dec.ofInt 0)
  | .null => Dec.ofInt 0
  | _ => Dec.ofInt 0

/-- The source's `Number(v) || 0` coercion: not-a-number outcomes (and the
zero produced by a falsy operand) both land on zero. -/
def jsToNum : Json → Dec
  | .null => Dec.ofInt 0
  | .bool b => Dec.ofInt (if b then 1 else 0)
  | .num d => d
  | .str s => (jsStringToNum s).getD (Dec.ofInt 0)
  | .arr [] => Dec.ofInt 0
  | .arr [x] => jsToNumInner x
  | .arr _ => Dec.ofInt 0
  | .obj _ => Dec.ofInt 0

/-- ASCII lowercasing, as Char.toLower performs. -/
def lowerStr (s : String) : String := String.mk (s.data.map Char.toLower)

def startsWithCh : List Char → List Char → Bool
  | [], _ => true
  | _ :: _, [] => false
  | p :: ps, c :: cs => p == c && startsWithCh ps cs

/-- Substring test, as String.prototype.includes performs. -/
def infixCh (pat : List Char) : List Char → Bool
  | [] => startsWithCh pat []
  | c :: cs => startsWithCh pat (c :: cs) || infixCh pat cs

/-- The source's `(it.label || '').toLowerCase()`.  `none` models the
TypeError thrown when the label is truthy but not a string (or the item
itself is null, whose property read already throws). -/
def labelOf : Json → Option String
  | .null => none
  | .obj ms =>
    match lookupKey ms "label" with
    | none => some ""
    | some v =>
      if truthy v then
        match v with
        | .str s => some (lowerStr s)
        | _ => none
      else some ""
  | _ => some ""

/-- Label filter of the coverage derivation (guarded by labelsOk). -/
def labelMatches (needle : String) (it : Json) : Bool :=
  infixCh needle.data ((labelOf it).getD "").data

/-- Whether the label scans of the coverage derivation run without a
JavaScript TypeError. -/
def labelsOk (its : List Json) : Bool := its.all (fun it => (labelOf it).isSome)

def clamp01000 (x : Dec) : Dec := Dec.maxD (Dec.ofInt 0) (Dec.minD (Dec.ofInt 1000) x)

/-- The source's areaOf: zero unless the box is an array of exactly four
entries; each entry is coerced with `Number(.) || 0` and clamped into
[0, 1000]; degenerate extents clip to zero. -/
def areaOf : Option Json → Dec
  | some (.arr [b0, b1, b2, b3]) =>
    let ymin := clamp01000 (jsToNum b0)
    let xmin := clamp01000 (jsToNum b1)
    let ymax := clamp01000 (jsToNum b2)
    let xmax := clamp01000 (jsToNum b3)
    let w := Dec.maxD (Dec.ofInt 0) (xmax.sub xmin)
    let h := Dec.maxD (Dec.ofInt 0) (ymax.sub ymin)
    (w.mul h).divPow10 6
  | _ => Dec.ofInt 0

/-- filter-then-reduce of the source's coverage derivation. -/
def areaSum (needle : String) (its : List Json) : Dec :=
  (its.filter (labelMatches needle)).foldl
    (fun s it => s.add (areaOf (getField it "box_2d"))) (Dec.ofInt 0)

/-- Math.round(Math.max(0, Math.min(100, a * 100))). -/
def coverageValue (a : Dec) : Dec :=
  Dec.ofInt (Dec.round (Dec.maxD (Dec.ofInt 0)
    (Dec.minD (Dec.ofInt 100) (a.mul (Dec.ofInt 100)))))

/-- The source's `== null` test (undefined or null; the Number.isNaN arm
can never fire on a JSON.parse result). -/
def nullish : Option Json → Bool
  | none => true
  | some .null => true
  | some _ => false

/-- Lines 144-174 of the source: derive coverage if missing but items with
boxes exist.  `none` models a TypeError escaping from the label scans. -/
def backfill (j : Json) : Option Json :=
  match getField j "items" with
  | some (.arr its) =>
    if labelsOk its then
      let j1 := if nullish (getField j "weedCoverage") then
          setField j "weedCoverage" (.num (coverageValue (areaSum "weed" its)))
        else j
      let j2 := if nullish (getField j1 "healthyCropCoverage") then
          setField j1 "healthyCropCoverage" (.num (coverageValue (areaSum "crop" its)))
        else j1
      let j3 := if nullish (getField j2 "totalArea") then
          setField j2 "totalArea" (.num (Dec.ofInt 100))
        else j2
      some j3
    else none
  | _ => some j

/-- The greedy regex span: first open brace through last close brace. -/
def extractSpan (cs : List Char) : Option (List Char) :=
  match cs.dropWhile (· != lbraceC) with
  | [] => none
  | l₀ =>
    match (l₀.reverse.dropWhile (· != rbraceC)).reverse with
    | [] => none
    | r₀ => some r₀

/-- The parse-failure fallback object, in the source's property order. -/
def fallbackData : Json :=
  .obj [("items", .arr []),
    ("weedCoverage", .num (Dec.ofInt 0)),
    ("healthyCropCoverage", .num (Dec.ofInt 100)),
    ("recommendations", .arr [.str "Unable to analyze image details"])]

/-- Lines 127-174 of the source: extract the JSON span, parse it (a present
span that fails to parse throws: `none`), otherwise take the fallback
object; then run the coverage backfill. -/
def normalizeResult (s : String) : Option Json :=
  match extractSpan s.data with
  | some sp =>
    match parseJsonCh sp with
    | some p => backfill p
    | none => none
  | none => backfill fallbackData

/-- Image-record columns the worker touches. -/
inductive Status where
  | pending
  | processing
  | completed
  | failed
deriving DecidableEq

structure ImageRecord where
  status : Status
  analysis_result : Option String
  segmentation_data : Option String
deriving DecidableEq

/-- Outcome of the infrastructure the worker awaits before normalisation:
either some step threw (file read, network call), or a response text was
obtained (`response.text || ''`). -/
inductive WorkerInput where
  | infraFail
  | modelResponse (text : String)

/-- The two UPDATE statements of analyzeImage. -/
inductive DbWrite where
  | terminalUpdate (analysisText segData : String)
  | failUpdate

def applyWrite (r : ImageRecord) : DbWrite → ImageRecord
  | .terminalUpdate t s =>
    { r with
      analysis_result := some t
      segmentation_data := some s
      status := .completed }
  | .failUpdate => { r with status := .failed }

/-- The persistence writes one run of analyzeImage performs. -/
def analyzeImageWrites : WorkerInput → List DbWrite
  | .infraFail => [.failUpdate]
  | .modelResponse t =>
    match normalizeResult t with
    | some y => [.terminalUpdate t (serializeJson y)]
    | none => [.failUpdate]

/-- One run of the worker over a record. -/
def analyzeImage (r : ImageRecord) (i : WorkerInput) : ImageRecord :=
  (analyzeImageWrites i).foldl applyWrite r

/-- Every record state observable during one worker run, the initial state
included. -/
def workerTrace (r : ImageRecord) (i : WorkerInput) : List ImageRecord :=
  (analyzeImageWrites i).scanl applyWrite r

/-- Rows of the images table the delete route touches. -/
structure StoredImage where
  id : ℕ
  user_id : ℕ
  original_path : String

/-- SELECT * FROM images WHERE id = ? AND user_id = ?. -/
def dbGetImage (db : List StoredImage) (i uid : ℕ) : Option StoredImage :=
  db.find? (fun r => r.id == i && r.user_id == uid)

/-- SELECT * FROM images WHERE user_id = ?. -/
def listByOwner (db : List StoredImage) (uid : ℕ) : List StoredImage :=
  db.filter (fun r => r.user_id == uid)

/-- fs.unlink(..).catch(() => ...): best effort, a missing file is ignored. -/
def unlinkBestEffort (files : List String) (p : String) : List String :=
  files.filter (fun q => q ≠ p)

structure DeleteOutcome where
  db : List StoredImage
  files : List String
  deleted : Bool

/-- The delete route: look the record up by id and owner, bail out when
absent, otherwise unlink the file best-effort and DELETE the row by id. -/
def deleteImageRoute (db : List StoredImage) (files : List String) (i uid : ℕ) :
    DeleteOutcome :=
  match dbGetImage db i uid with
  | none => ⟨db, files, false⟩
  | some img =>
    ⟨db.filter (fun r => r.id ≠ i), unlinkBestEffort files img.original_path, true⟩

/-- C2's reference area function, following the claim's words: zero unless
the input is exactly four numeric values. -/
def areaOfClaim : Option Json → Dec
  | some (.arr [.num a, .num b, .num c, .num d]) =>
    let ymin := clamp01000 a
    let xmin := clamp01000 b
    let ymax := clamp01000 c
    let xmax := clamp01000 d
    ((Dec.maxD (Dec.ofInt 0) (xmax.sub xmin)).mul
      (Dec.maxD (Dec.ofInt 0) (ymax.sub ymin))).divPow10 6
  | _ => Dec.ofInt 0

/-- Amended reference area function: zero unless the input is an array of
exactly four entries; each entry goes through the JavaScript number
coercion (a non-coercible entry counting as zero). -/
def areaOfAmended (b : Option Json) : Dec :=
  match b with
  | some (.arr l) =>
    if l.length = 4 then
      let ymin := clamp01000 (jsToNum (l.getD 0 .null))
      let xmin := clamp01000 (jsToNum (l.getD 1 .null))
      let ymax := clamp01000 (jsToNum (l.getD 2 .null))
      let xmax := clamp01000 (jsToNum (l.getD 3 .null))
      ((Dec.maxD (Dec.ofInt 0) (xmax.sub xmin)).mul
        (Dec.maxD (Dec.ofInt 0) (ymax.sub ymin))).divPow10 6
    else Dec.ofInt 0
  | _ => Dec.ofInt 0

/-- The claim's reading of an item's label: the label field when it is a
string, lowercased; the empty string otherwise. -/
def refLabel : Json → String
  | .obj ms =>
    match lookupKey ms "label" with
    | some (.str s) => lowerStr s
    | _ => ""
  | _ => ""

/-- C3's reference aggregation: round(clamp_[0,100](100 × the sum, over the
items whose label case-insensitively contains the needle, of the areas of
their boxes)). -/
def refCoveragePercent (needle : String) (its : List Json) : ℤ :=
  Dec.round (Dec.maxD (Dec.ofInt 0) (Dec.minD (Dec.ofInt 100)
    ((Dec.ofInt 100).mul
      (((its.filter (fun it => infixCh needle.data (refLabel it).data)).map
        (fun it => areaOf (getField it "box_2d"))).foldr Dec.add (Dec.ofInt 0)))))

/-- Well-formed trees: canonical numbers, objects with distinct keys.  Every
JSON.parse result and every normalised payload is of this shape. -/
inductive WfJ : Json → Prop where
  | null : WfJ .null
  | bool (b : Bool) : WfJ (.bool b)
  | num (d : Dec) : d.IsCanon → WfJ (.num d)
  | str (s : String) : WfJ (.str s)
  | arr (xs : List Json) : (∀ x ∈ xs, WfJ x) → WfJ (.arr xs)
  | obj (ms : List (String × Json)) : (ms.map Prod.fst).Nodup →
      (∀ kv ∈ ms, WfJ kv.2) → WfJ (.obj ms)

/-- A remainder on which a just-parsed number cannot be extended: empty, or
starting with a character that neither continues a digit run nor opens a
fraction or exponent. -/
def NumStop : List Char → Prop
  | [] => True
  | c :: _ => c.isDigit = false ∧ c ≠ '.' ∧ c ≠ 'e' ∧ c ≠ 'E'

/-- A remainder that can follow a serialized value inside a document:
empty, or starting with a separator or closer. -/
def SepOk (cs : List Char) : Prop :=
  cs = [] ∨ ∃ c t, cs = c :: t ∧ (c = ',' ∨ c = ']' ∨ c = rbraceC)

theorem val_canonAux (f : ℕ) : ∀ (m : ℤ) (e : ℕ), (canonAux f m e).val = (m : ℚ) / 10 ^ e := by
  induction f with
  | zero => intro m e; rfl
  | succ f ih =>
    intro m e
    cases e with
    | zero => rfl
    | succ e =>
      by_cases h : m % 10 = 0
      · have hm : (10 : ℤ) * (m / 10) = m := by omega
        have h10 : ((m / 10 : ℤ) : ℚ) = (m : ℚ) / 10 := by
          have hc := congrArg (fun z : ℤ => (z : ℚ)) hm
          push_cast at hc
          field_simp
          linarith
        simp only [canonAux, if_pos h]
        rw [ih, h10, div_div, ← pow_succ']
      · simp only [canonAux, if_neg h]
        rfl

theorem canon_val (m : ℤ) (e : ℕ) : (canon m e).val = (m : ℚ) / 10 ^ e :=
  val_canonAux e m e

theorem isCanon_canonAux (f : ℕ) :
    ∀ (m : ℤ) (e : ℕ), e ≤ f → (canonAux f m e).IsCanon := by
  induction f with
  | zero =>
    intro m e he
    have : e = 0 := by omega
    subst this
    exact Or.inl rfl
  | succ f ih =>
    intro m e he
    cases e with
    | zero => exact Or.inl rfl
    | succ e =>
      by_cases h : m % 10 = 0
      · simp only [canonAux, if_pos h]
        exact ih _ _ (by omega)
      · simp only [canonAux, if_neg h]
        exact Or.inr h

theorem canon_isCanon (m : ℤ) (e : ℕ) : (canon m e).IsCanon :=
  isCanon_canonAux e m e (le_refl e)

theorem canon_eq_of_isCanon {m : ℤ} {e : ℕ} (h : Dec.IsCanon ⟨m, e⟩) :
    canon m e = ⟨m, e⟩ := by
  cases e with
  | zero => rfl
  | succ e =>
    have hm : m % 10 ≠ 0 := by
      rcases h with h | h
      · exact absurd h (by simp)
      · exact h
    simp [canon, canonAux, hm]

theorem Dec.ofInt_isCanon (n : ℤ) : (Dec.ofInt n).IsCanon := Or.inl rfl

theorem Dec.neg_isCanon {a : Dec} (h : a.IsCanon) : a.neg.IsCanon := by
  rcases h with h | h
  · exact Or.inl h
  · exact Or.inr (by simp only [Dec.neg]; omega)

theorem Dec.val_ofInt (n : ℤ) : (Dec.ofInt n).val = (n : ℚ) := by
  simp [Dec.ofInt, Dec.val]

theorem shift_div (x : ℚ) {i j : ℕ} (h : i ≤ j) :
    x * 10 ^ (j - i) / 10 ^ j = x / 10 ^ i := by
  rw [div_eq_div_iff (by positivity) (by positivity), mul_assoc, ← pow_add,
    Nat.sub_add_cancel h]

theorem Dec.val_add (a b : Dec) : (a.add b).val = a.val + b.val := by
  unfold Dec.add
  rw [canon_val]
  push_cast
  rw [add_div, shift_div _ (le_max_left a.e b.e), shift_div _ (le_max_right a.e b.e)]
  rfl

theorem Dec.val_neg (a : Dec) : a.neg.val = -a.val := by
  unfold Dec.neg Dec.val
  push_cast
  rw [neg_div]

theorem Dec.val_sub (a b : Dec) : (a.sub b).val = a.val - b.val := by
  unfold Dec.sub
  rw [Dec.val_add, Dec.val_neg, sub_eq_add_neg]

theorem Dec.val_mul (a b : Dec) : (a.mul b).val = a.val * b.val := by
  unfold Dec.mul
  rw [canon_val]
  push_cast
  simp only [Dec.val]
  rw [pow_add, div_mul_div_comm]

theorem Dec.val_divPow10 (a : Dec) (k : ℕ) : (a.divPow10 k).val = a.val / 10 ^ k := by
  unfold Dec.divPow10
  rw [canon_val, pow_add, ← div_div]
  rfl

theorem Dec.leB_iff (a b : Dec) : a.leB b = true ↔ a.val ≤ b.val := by
  unfold Dec.leB Dec.val
  rw [decide_eq_true_iff, div_le_div_iff₀ (by positivity) (by positivity)]
  constructor
  · intro h
    exact_mod_cast h
  · intro h
    exact_mod_cast h

theorem Dec.val_minD (a b : Dec) : (a.minD b).val = min a.val b.val := by
  unfold Dec.minD
  by_cases h : a.leB b = true
  · rw [if_pos h, min_eq_left ((Dec.leB_iff a b).mp h)]
  · rw [if_neg h]
    have := le_of_not_le (fun hc => h ((Dec.leB_iff a b).mpr hc))
    rw [min_eq_right this]

theorem Dec.val_maxD (a b : Dec) : (a.maxD b).val = max a.val b.val := by
  unfold Dec.maxD
  by_cases h : a.leB b = true
  · rw [if_pos h, max_eq_right ((Dec.leB_iff a b).mp h)]
  · rw [if_neg h]
    have := le_of_not_le (fun hc => h ((Dec.leB_iff a b).mpr hc))
    rw [max_eq_left this]

theorem Dec.minD_cases (a b : Dec) : a.minD b = a ∨ a.minD b = b := by
  unfold Dec.minD
  by_cases h : a.leB b = true
  · exact Or.inl (if_pos h)
  · exact Or.inr (if_neg h)

theorem Dec.maxD_cases (a b : Dec) : a.maxD b = a ∨ a.maxD b = b := by
  unfold Dec.maxD
  by_cases h : a.leB b = true
  · exact Or.inr (if_pos h)
  · exact Or.inl (if_neg h)

theorem Dec.round_val (a : Dec) : a.round = ⌊a.val + 1 / 2⌋ := by
  unfold Dec.round Dec.val
  have hv : (a.m : ℚ) / 10 ^ a.e + 1 / 2 =
      ((2 * a.m + 10 ^ a.e : ℤ) : ℚ) / ((2 * 10 ^ a.e : ℕ) : ℚ) := by
    push_cast
    field_simp
    ring
  rw [hv, Rat.floor_intCast_div_natCast]
  push_cast
  rfl

theorem Dec.round_range {a : Dec} (h0 : 0 ≤ a.val) (h100 : a.val ≤ 100) :
    0 ≤ a.round ∧ a.round ≤ 100 := by
  rw [Dec.round_val]
  constructor
  · rw [Int.le_floor]
    push_cast
    linarith
  · have hm : a.val + 1 / 2 ≤ (201 : ℚ) / 2 := by linarith
    have := Int.floor_mono hm
    have h201 : ⌊(201 : ℚ) / 2⌋ = 100 := by norm_num [Int.floor_eq_iff]
    omega

theorem isCanon_val_le {x y : Dec} (hx : x.IsCanon) (hy : y.IsCanon)
    (hv : x.val = y.val) (he : x.e ≤ y.e) : x = y := by
  obtain ⟨xm, xe⟩ := x
  obtain ⟨ym, ye⟩ := y
  simp only [Dec.val] at hv
  have hcross : (xm : ℚ) * 10 ^ ye = ym * 10 ^ xe := by
    rw [div_eq_div_iff (by positivity) (by positivity)] at hv
    exact hv
  have hz : xm * 10 ^ ye = ym * 10 ^ xe := by exact_mod_cast hcross
  simp only at he
  have hsub : ye - xe + xe = ye := Nat.sub_add_cancel he
  have hzz : xm * 10 ^ (ye - xe) * 10 ^ xe = ym * 10 ^ xe := by
    rw [mul_assoc, ← pow_add, hsub]
    exact hz
  have hmm : xm * 10 ^ (ye - xe) = ym :=
    mul_right_cancel₀ (by positivity) hzz
  rcases Nat.eq_zero_or_pos (ye - xe) with hk | hk
  · have hee : xe = ye := by omega
    subst hee
    rw [hk, pow_zero, mul_one] at hmm
    rw [hmm]
  · exfalso
    obtain ⟨k, hkk⟩ := Nat.exists_eq_succ_of_ne_zero (Nat.pos_iff_ne_zero.mp hk)
    have hdvd : (10 : ℤ) ∣ ym := by
      refine ⟨xm * 10 ^ k, ?_⟩
      rw [← hmm, hkk, pow_succ]
      ring
    rcases hy with hy0 | hy10
    · simp only at hy0
      omega
    · simp only at hy10
      omega

theorem isCanon_val_inj {x y : Dec} (hx : x.IsCanon) (hy : y.IsCanon)
    (hv : x.val = y.val) : x = y := by
  rcases le_total x.e y.e with h | h
  · exact isCanon_val_le hx hy hv h
  · exact (isCanon_val_le hy hx hv.symm h).symm

theorem lookupKey_setKey_self (ms : List (String × Json)) (k : String) (v : Json) :
    lookupKey (setKey ms k v) k = some v := by
  induction ms with
  | nil => simp [setKey, lookupKey]
  | cons kv ms ih =>
    obtain ⟨k0, v0⟩ := kv
    by_cases h : k0 = k
    · simp [setKey, h, lookupKey]
    · simp [setKey, h, lookupKey, ih]

theorem lookupKey_setKey_ne (ms : List (String × Json)) {k k' : String} (v : Json)
    (h : k' ≠ k) : lookupKey (setKey ms k v) k' = lookupKey ms k' := by
  have hkk : ¬ k = k' := fun hc => h hc.symm
  induction ms with
  | nil => simp [setKey, lookupKey, hkk]
  | cons kv ms ih =>
    obtain ⟨k0, v0⟩ := kv
    by_cases h0 : k0 = k
    · subst h0
      simp [setKey, lookupKey, hkk]
    · simp [setKey, h0, lookupKey, ih]

theorem getField_setField_self (ms : List (String × Json)) (k : String) (v : Json) :
    getField (setField (.obj ms) k v) k = some v := by
  simp [setField, getField, lookupKey_setKey_self]

theorem getField_setField_ne (j : Json) {k k' : String} (v : Json) (h : k' ≠ k) :
    getField (setField j k v) k' = getField j k' := by
  cases j with
  | obj ms => exact lookupKey_setKey_ne ms v h
  | null => rfl
  | bool b => rfl
  | num d => rfl
  | str s => rfl
  | arr xs => rfl

theorem backfill_arr {j : Json} {its : List Json}
    (hit : getField j "items" = some (.arr its)) (hok : labelsOk its = true) :
    backfill j = some (
      let j1 := if nullish (getField j "weedCoverage") then
          setField j "weedCoverage" (.num (coverageValue (areaSum "weed" its)))
        else j
      let j2 := if nullish (getField j1 "healthyCropCoverage") then
          setField j1 "healthyCropCoverage" (.num (coverageValue (areaSum "crop" its)))
        else j1
      if nullish (getField j2 "totalArea") then
        setField j2 "totalArea" (.num (Dec.ofInt 100))
      else j2) := by
  unfold backfill
  rw [hit]
  simp only [hok, if_true]

theorem backfill_labels_bad {j : Json} {its : List Json}
    (hit : getField j "items" = some (.arr its)) (hok : labelsOk its = false) :
    backfill j = none := by
  unfold backfill
  rw [hit]
  simp only [hok]
  rfl

theorem backfill_not_arr {j : Json}
    (h : ∀ its, getField j "items" ≠ some (.arr its)) : backfill j = some j := by
  unfold backfill
  rcases hif : getField j "items" with _ | v
  · rfl
  · cases v with
    | arr its => exact absurd hif (h its)
    | null => rfl
    | bool b => rfl
    | num d => rfl
    | str s => rfl
    | obj ms => rfl

theorem dec_eq_zero {a : Dec} (hc : a.IsCanon) (hv : a.val = 0) : a = Dec.ofInt 0 :=
  isCanon_val_inj hc (Dec.ofInt_isCanon 0) (by rw [hv, Dec.val_ofInt]; norm_num)

theorem clamp01000_val (x : Dec) :
    (clamp01000 x).val = max 0 (min 1000 x.val) := by
  unfold clamp01000
  rw [Dec.val_maxD, Dec.val_minD, Dec.val_ofInt, Dec.val_ofInt]
  norm_num

theorem clamp01000_isCanon {x : Dec} (h : x.IsCanon) : (clamp01000 x).IsCanon := by
  unfold clamp01000
  rcases Dec.maxD_cases (Dec.ofInt 0) (Dec.minD (Dec.ofInt 1000) x) with h1 | h1 <;> rw [h1]
  · exact Dec.ofInt_isCanon 0
  · rcases Dec.minD_cases (Dec.ofInt 1000) x with h2 | h2 <;> rw [h2]
    · exact Dec.ofInt_isCanon 1000
    · exact h

theorem areaOf_isCanon (b : Option Json) : (areaOf b).IsCanon := by
  rcases b with _ | j
  · exact Dec.ofInt_isCanon 0
  · cases j with
    | arr xs =>
      match xs with
      | [] => exact Dec.ofInt_isCanon 0
      | [b0] => exact Dec.ofInt_isCanon 0
      | [b0, b1] => exact Dec.ofInt_isCanon 0
      | [b0, b1, b2] => exact Dec.ofInt_isCanon 0
      | [b0, b1, b2, b3] => exact canon_isCanon _ _
      | b0 :: b1 :: b2 :: b3 :: b4 :: bs => exact Dec.ofInt_isCanon 0
    | null => exact Dec.ofInt_isCanon 0
    | bool b => exact Dec.ofInt_isCanon 0
    | num d => exact Dec.ofInt_isCanon 0
    | str s => exact Dec.ofInt_isCanon 0
    | obj ms => exact Dec.ofInt_isCanon 0

theorem areaOf_quad (b0 b1 b2 b3 : Json) :
    areaOf (some (.arr [b0, b1, b2, b3])) =
      ((Dec.maxD (Dec.ofInt 0)
          ((clamp01000 (jsToNum b3)).sub (clamp01000 (jsToNum b1)))).mul
        (Dec.maxD (Dec.ofInt 0)
          ((clamp01000 (jsToNum b2)).sub (clamp01000 (jsToNum b0))))).divPow10 6 := rfl

theorem clamp01000_val_bounds (x : Dec) :
    0 ≤ (clamp01000 x).val ∧ (clamp01000 x).val ≤ 1000 := by
  rw [clamp01000_val]
  exact ⟨le_max_left 0 _, max_le (by norm_num) (min_le_left _ _)⟩

theorem areaOf_val_bounds (b : Option Json) :
    0 ≤ (areaOf b).val ∧ (areaOf b).val ≤ 1 := by
  have hz : (0 : ℚ) ≤ (Dec.ofInt 0).val ∧ (Dec.ofInt 0).val ≤ 1 := by
    rw [Dec.val_ofInt]; norm_num
  rcases b with _ | j
  · exact hz
  · cases j with
    | arr xs =>
      match xs with
      | [] => exact hz
      | [b0] => exact hz
      | [b0, b1] => exact hz
      | [b0, b1, b2] => exact hz
      | [b0, b1, b2, b3] =>
        rw [areaOf_quad, Dec.val_divPow10, Dec.val_mul, Dec.val_maxD, Dec.val_maxD,
          Dec.val_sub, Dec.val_sub, Dec.val_ofInt]
        obtain ⟨ha0, ha1⟩ := clamp01000_val_bounds (jsToNum b0)
        obtain ⟨hb0, hb1⟩ := clamp01000_val_bounds (jsToNum b1)
        obtain ⟨hc0, hc1⟩ := clamp01000_val_bounds (jsToNum b2)
        obtain ⟨hd0, hd1⟩ := clamp01000_val_bounds (jsToNum b3)
        have hw0 : (0 : ℚ) ≤
            max 0 ((clamp01000 (jsToNum b3)).val - (clamp01000 (jsToNum b1)).val) :=
          le_max_left _ _
        have hh0 : (0 : ℚ) ≤
            max 0 ((clamp01000 (jsToNum b2)).val - (clamp01000 (jsToNum b0)).val) :=
          le_max_left _ _
        have hw1 : max 0 ((clamp01000 (jsToNum b3)).val - (clamp01000 (jsToNum b1)).val)
            ≤ 1000 := max_le (by norm_num) (by linarith)
        have hh1 : max 0 ((clamp01000 (jsToNum b2)).val - (clamp01000 (jsToNum b0)).val)
            ≤ 1000 := max_le (by norm_num) (by linarith)
        constructor
        · exact div_nonneg (mul_nonneg hw0 hh0) (by positivity)
        · rw [div_le_one (by positivity)]
          calc max 0 ((clamp01000 (jsToNum b3)).val - (clamp01000 (jsToNum b1)).val) *
              max 0 ((clamp01000 (jsToNum b2)).val - (clamp01000 (jsToNum b0)).val)
              ≤ (1000 : ℚ) * 1000 := mul_le_mul hw1 hh1 hh0 (by norm_num)
            _ ≤ 10 ^ 6 := by norm_num
      | b0 :: b1 :: b2 :: b3 :: b4 :: bs => exact hz
    | null => exact hz
    | bool bb => exact hz
    | num d => exact hz
    | str s => exact hz
    | obj ms => exact hz

theorem areaOf_eq_amended (b : Option Json) : areaOf b = areaOfAmended b := by
  rcases b with _ | j
  · rfl
  · cases j with
    | arr xs =>
      match xs with
      | [] => rfl
      | [b0] => rfl
      | [b0, b1] => rfl
      | [b0, b1, b2] => rfl
      | [b0, b1, b2, b3] => rfl
      | b0 :: b1 :: b2 :: b3 :: b4 :: bs =>
        have hlen : (b0 :: b1 :: b2 :: b3 :: b4 :: bs).length ≠ 4 := by simp
        show Dec.ofInt 0 = areaOfAmended _
        simp [areaOfAmended, hlen]
    | null => rfl
    | bool bb => rfl
    | num d => rfl
    | str s => rfl
    | obj ms => rfl

/-- C2 (amended): the bounding-box area function returns 0 unless the input
is an array of exactly four entries; each entry is coerced JavaScript-style
to a number (an entry that does not coerce counts as zero, but numeric
strings DO coerce, which refutes the original "four numeric values"
reference) and clamped into [0, 1000]; width and height clip at zero; the
result (width × height) / 1,000,000 always lies in [0, 1] and is 0 for
every degenerate box with yMin > yMax or xMin > xMax. -/
theorem c2_area_contract (b : Option Json) (y0 x0 y1 x1 : Dec)
    (hdeg : Dec.leB y0 y1 = false ∨ Dec.leB x0 x1 = false) :
    areaOf b = areaOfAmended b ∧ (0 ≤ (areaOf b).val ∧ (areaOf b).val ≤ 1) ∧
    areaOf (some (.arr [.num y0, .num x0, .num y1, .num x1])) = Dec.ofInt 0 := by
  refine ⟨areaOf_eq_amended b, areaOf_val_bounds b, ?_⟩
  apply dec_eq_zero (areaOf_isCanon _)
  rw [areaOf_quad, Dec.val_divPow10, Dec.val_mul, Dec.val_maxD, Dec.val_maxD,
    Dec.val_sub, Dec.val_sub, Dec.val_ofInt]
  simp only [jsToNum]
  push_cast
  rcases hdeg with hd | hd
  · have hn : ¬ (Dec.leB y0 y1 = true) := by rw [hd]; simp
    have hval : y1.val < y0.val :=
      not_le.mp (fun hc => hn ((Dec.leB_iff y0 y1).mpr hc))
    have hcl : (clamp01000 y1).val ≤ (clamp01000 y0).val := by
      rw [clamp01000_val, clamp01000_val]
      exact max_le_max le_rfl (min_le_min le_rfl hval.le)
    rw [max_eq_left (sub_nonpos.mpr hcl), mul_zero, zero_div]
  · have hn : ¬ (Dec.leB x0 x1 = true) := by rw [hd]; simp
    have hval : x1.val < x0.val :=
      not_le.mp (fun hc => hn ((Dec.leB_iff x0 x1).mpr hc))
    have hcl : (clamp01000 x1).val ≤ (clamp01000 x0).val := by
      rw [clamp01000_val, clamp01000_val]
      exact max_le_max le_rfl (min_le_min le_rfl hval.le)
    rw [max_eq_left (sub_nonpos.mpr hcl), zero_mul, zero_div]

/-- C2 counterexample: a box of four numeric strings goes through the
source's Number coercion and yields area 1, while the claim's reference
definition ("not exactly four numeric values") yields 0. -/
theorem c2_counterexample :
    areaOf (some (.arr [.str "0", .str "0", .str "1000", .str "1000"])) =
      Dec.ofInt 1 ∧
    areaOfClaim (some (.arr [.str "0", .str "0", .str "1000", .str "1000"])) =
      Dec.ofInt 0 ∧
    areaOf (some (.arr [.str "0", .str "0", .str "1000", .str "1000"])) ≠
      areaOfClaim (some (.arr [.str "0", .str "0", .str "1000", .str "1000"])) :=
  ⟨rfl, rfl, by decide⟩

/-- Witness for c2_area_contract at the degenerate box [5, 0, 2, 0]. -/
theorem c2_area_contract_witness :
    areaOf none = areaOfAmended none ∧
    (0 ≤ (areaOf none).val ∧ (areaOf none).val ≤ 1) ∧
    areaOf (some (.arr [.num (Dec.ofInt 5), .num (Dec.ofInt 0),
      .num (Dec.ofInt 2), .num (Dec.ofInt 0)])) = Dec.ofInt 0 :=
  c2_area_contract none (Dec.ofInt 5) (Dec.ofInt 0) (Dec.ofInt 2) (Dec.ofInt 0)
    (Or.inl (by decide))

theorem coverageValue_range (a : Dec) :
    ∃ n : ℤ, coverageValue a = Dec.ofInt n ∧ 0 ≤ n ∧ n ≤ 100 := by
  refine ⟨Dec.round _, rfl, ?_⟩
  have hb := Dec.round_range
    (a := Dec.maxD (Dec.ofInt 0) (Dec.minD (Dec.ofInt 100) (a.mul (Dec.ofInt 100))))
    ?_ ?_
  · exact hb
  · rw [Dec.val_maxD, Dec.val_ofInt]
    exact le_max_left _ _
  · rw [Dec.val_maxD, Dec.val_minD, Dec.val_ofInt, Dec.val_ofInt]
    exact max_le (by norm_num) (min_le_left _ _)

theorem backfill_arr2 {j : Json} {its : List Json}
    (hit : getField j "items" = some (.arr its)) (hok : labelsOk its = true) :
    ∀ j1 j2, j1 = (if nullish (getField j "weedCoverage") then
        setField j "weedCoverage" (.num (coverageValue (areaSum "weed" its)))
      else j) →
    j2 = (if nullish (getField j1 "healthyCropCoverage") then
        setField j1 "healthyCropCoverage" (.num (coverageValue (areaSum "crop" its)))
      else j1) →
    backfill j = some (if nullish (getField j2 "totalArea") then
        setField j2 "totalArea" (.num (Dec.ofInt 100))
      else j2) := by
  intro j1 j2 h1 h2
  subst h1
  subst h2
  exact backfill_arr hit hok

theorem setField_obj_eq (ms : List (String × Json)) (k : String) (v : Json) :
    setField (.obj ms) k v = .obj (setKey ms k v) := rfl

theorem getField_obj_eq (ms : List (String × Json)) (k : String) :
    getField (.obj ms) k = lookupKey ms k := rfl

/-- Full characterisation of the coverage backfill on an object payload
whose items field is an array and whose label scans do not throw. -/
theorem backfill_fields {ms : List (String × Json)} {its : List Json}
    (hit : getField (.obj ms) "items" = some (.arr its))
    (hok : labelsOk its = true) :
    ∃ y, backfill (.obj ms) = some y ∧
      (getField y "weedCoverage" =
        if nullish (lookupKey ms "weedCoverage") then
          some (.num (coverageValue (areaSum "weed" its)))
        else lookupKey ms "weedCoverage") ∧
      (getField y "healthyCropCoverage" =
        if nullish (lookupKey ms "healthyCropCoverage") then
          some (.num (coverageValue (areaSum "crop" its)))
        else lookupKey ms "healthyCropCoverage") ∧
      (getField y "totalArea" =
        if nullish (lookupKey ms "totalArea") then
          some (.num (Dec.ofInt 100))
        else lookupKey ms "totalArea") ∧
      (∀ k, k ≠ "weedCoverage" → k ≠ "healthyCropCoverage" → k ≠ "totalArea" →
        getField y k = lookupKey ms k) := by
  have nHW : ("healthyCropCoverage" : String) ≠ "weedCoverage" := by decide
  have nTW : ("totalArea" : String) ≠ "weedCoverage" := by decide
  have nTH : ("totalArea" : String) ≠ "healthyCropCoverage" := by decide
  have nWT : ("weedCoverage" : String) ≠ "totalArea" := by decide
  have nWH : ("weedCoverage" : String) ≠ "healthyCropCoverage" := by decide
  have nHT : ("healthyCropCoverage" : String) ≠ "totalArea" := by decide
  have hB := backfill_arr2 hit hok _ _ rfl rfl
  simp only [setField_obj_eq, getField_obj_eq] at hB
  split at hB
  next h1 =>
    simp only [setField_obj_eq, getField_obj_eq] at hB
    rw [lookupKey_setKey_ne _ _ nHW] at hB
    split at hB
    next h2 =>
      simp only [setField_obj_eq, getField_obj_eq] at hB
      rw [lookupKey_setKey_ne _ _ nTH, lookupKey_setKey_ne _ _ nTW] at hB
      split at hB
      next h3 =>
        refine ⟨_, hB, ?_, ?_, ?_, ?_⟩
        · simp only [setField_obj_eq, getField_obj_eq]
          rw [lookupKey_setKey_ne _ _ nWT, lookupKey_setKey_ne _ _ nWH,
            lookupKey_setKey_self, if_pos h1]
        · simp only [setField_obj_eq, getField_obj_eq]
          rw [lookupKey_setKey_ne _ _ nHT, lookupKey_setKey_self, if_pos h2]
        · simp only [setField_obj_eq, getField_obj_eq]
          rw [lookupKey_setKey_self, if_pos h3]
        · intro k hk1 hk2 hk3
          simp only [setField_obj_eq, getField_obj_eq]
          rw [lookupKey_setKey_ne _ _ hk3, lookupKey_setKey_ne _ _ hk2,
            lookupKey_setKey_ne _ _ hk1]
      next h3 =>
        refine ⟨_, hB, ?_, ?_, ?_, ?_⟩
        · simp only [setField_obj_eq, getField_obj_eq]
          rw [lookupKey_setKey_ne _ _ nWH, lookupKey_setKey_self, if_pos h1]
        · simp only [setField_obj_eq, getField_obj_eq]
          rw [lookupKey_setKey_self, if_pos h2]
        · simp only [setField_obj_eq, getField_obj_eq]
          rw [lookupKey_setKey_ne _ _ nTH, lookupKey_setKey_ne _ _ nTW, if_neg h3]
        · intro k hk1 hk2 hk3
          simp only [setField_obj_eq, getField_obj_eq]
          rw [lookupKey_setKey_ne _ _ hk2, lookupKey_setKey_ne _ _ hk1]
    next h2 =>
      simp only [setField_obj_eq, getField_obj_eq] at hB
      rw [lookupKey_setKey_ne _ _ nTW] at hB
      split at hB
      next h3 =>
        refine ⟨_, hB, ?_, ?_, ?_, ?_⟩
        · simp only [setField_obj_eq, getField_obj_eq]
          rw [lookupKey_setKey_ne _ _ nWT, lookupKey_setKey_self, if_pos h1]
        · simp only [setField_obj_eq, getField_obj_eq]
          rw [lookupKey_setKey_ne _ _ nHT, lookupKey_setKey_ne _ _ nHW, if_neg h2]
        · simp only [setField_obj_eq, getField_obj_eq]
          rw [lookupKey_setKey_self, if_pos h3]
        · intro k hk1 hk2 hk3
          simp only [setField_obj_eq, getField_obj_eq]
          rw [lookupKey_setKey_ne _ _ hk3, lookupKey_setKey_ne _ _ hk1]
      next h3 =>
        refine ⟨_, hB, ?_, ?_, ?_, ?_⟩
        · simp only [setField_obj_eq, getField_obj_eq]
          rw [lookupKey_setKey_self, if_pos h1]
        · simp only [setField_obj_eq, getField_obj_eq]
          rw [lookupKey_setKey_ne _ _ nHW, if_neg h2]
        · simp only [setField_obj_eq, getField_obj_eq]
          rw [lookupKey_setKey_ne _ _ nTW, if_neg h3]
        · intro k hk1 hk2 hk3
          simp only [setField_obj_eq, getField_obj_eq]
          rw [lookupKey_setKey_ne _ _ hk1]
  next h1 =>
    simp only [setField_obj_eq, getField_obj_eq] at hB
    split at hB
    next h2 =>
      simp only [setField_obj_eq, getField_obj_eq] at hB
      rw [lookupKey_setKey_ne _ _ nTH] at hB
      split at hB
      next h3 =>
        refine ⟨_, hB, ?_, ?_, ?_, ?_⟩
        · simp only [setField_obj_eq, getField_obj_eq]
          rw [lookupKey_setKey_ne _ _ nWT, lookupKey_setKey_ne _ _ nWH, if_neg h1]
        · simp only [setField_obj_eq, getField_obj_eq]
          rw [lookupKey_setKey_ne _ _ nHT, lookupKey_setKey_self, if_pos h2]
        · simp only [setField_obj_eq, getField_obj_eq]
          rw [lookupKey_setKey_self, if_pos h3]
        · intro k hk1 hk2 hk3
          simp only [setField_obj_eq, getField_obj_eq]
          rw [lookupKey_setKey_ne _ _ hk3, lookupKey_setKey_ne _ _ hk2]
      next h3 =>
        refine ⟨_, hB, ?_, ?_, ?_, ?_⟩
        · simp only [setField_obj_eq, getField_obj_eq]
          rw [lookupKey_setKey_ne _ _ nWH, if_neg h1]
        · simp only [setField_obj_eq, getField_obj_eq]
          rw [lookupKey_setKey_self, if_pos h2]
        · simp only [setField_obj_eq, getField_obj_eq]
          rw [lookupKey_setKey_ne _ _ nTH, if_neg h3]
        · intro k hk1 hk2 hk3
          simp only [setField_obj_eq, getField_obj_eq]
          rw [lookupKey_setKey_ne _ _ hk2]
    next h2 =>
      simp only [setField_obj_eq, getField_obj_eq] at hB
      split at hB
      next h3 =>
        refine ⟨_, hB, ?_, ?_, ?_, ?_⟩
        · simp only [setField_obj_eq, getField_obj_eq]
          rw [lookupKey_setKey_ne _ _ nWT, if_neg h1]
        · simp only [setField_obj_eq, getField_obj_eq]
          rw [lookupKey_setKey_ne _ _ nHT, if_neg h2]
        · simp only [setField_obj_eq, getField_obj_eq]
          rw [lookupKey_setKey_self, if_pos h3]
        · intro k hk1 hk2 hk3
          simp only [setField_obj_eq, getField_obj_eq]
          rw [lookupKey_setKey_ne _ _ hk3]
      next h3 =>
        refine ⟨_, hB, ?_, ?_, ?_, ?_⟩
        · simp only [getField_obj_eq]
          rw [if_neg h1]
        · simp only [getField_obj_eq]
          rw [if_neg h2]
        · simp only [getField_obj_eq]
          rw [if_neg h3]
        · intro k hk1 hk2 hk3
          simp only [getField_obj_eq]

theorem getField_some_obj {j : Json} {k : String} {v : Json}
    (h : getField j k = some v) : ∃ ms, j = .obj ms := by
  cases j with
  | obj ms => exact ⟨ms, rfl⟩
  | null => simp [getField] at h
  | bool b => simp [getField] at h
  | num d => simp [getField] at h
  | str s => simp [getField] at h
  | arr xs => simp [getField] at h

theorem backfill_some_labelsOk {j : Json} {its : List Json} {y : Json}
    (hit : getField j "items" = some (.arr its)) (hb : backfill j = some y) :
    labelsOk its = true := by
  cases hok : labelsOk its with
  | true => rfl
  | false => rw [backfill_labels_bad hit hok] at hb; cases hb

/-- C4 (amended): the coverage values the normaliser itself writes are
integers clamped into [0, 100]; a coverage value present (non-nullish) in
the parsed payload is passed through exactly as parsed and is NOT clamped,
which refutes the original "for every input text" clamping claim. -/
theorem c4_coverage_clamping (j y : Json) (its : List Json)
    (hit : getField j "items" = some (.arr its))
    (hb : backfill j = some y) :
    (nullish (getField j "weedCoverage") = true →
      ∃ n : ℤ, 0 ≤ n ∧ n ≤ 100 ∧
        getField y "weedCoverage" = some (.num (Dec.ofInt n))) ∧
    (nullish (getField j "healthyCropCoverage") = true →
      ∃ n : ℤ, 0 ≤ n ∧ n ≤ 100 ∧
        getField y "healthyCropCoverage" = some (.num (Dec.ofInt n))) ∧
    (nullish (getField j "weedCoverage") = false →
      getField y "weedCoverage" = getField j "weedCoverage") ∧
    (nullish (getField j "healthyCropCoverage") = false →
      getField y "healthyCropCoverage" = getField j "healthyCropCoverage") := by
  obtain ⟨ms, rfl⟩ := getField_some_obj hit
  have hok := backfill_some_labelsOk hit hb
  obtain ⟨y', hb', hwf, hcf, htf, _⟩ := backfill_fields hit hok
  rw [hb] at hb'
  obtain rfl := Option.some.inj hb'
  refine ⟨?_, ?_, ?_, ?_⟩
  · intro hnull
    rw [getField_obj_eq] at hnull
    obtain ⟨n, hn, h0, h100⟩ := coverageValue_range (areaSum "weed" its)
    exact ⟨n, h0, h100, by rw [hwf, if_pos hnull, hn]⟩
  · intro hnull
    rw [getField_obj_eq] at hnull
    obtain ⟨n, hn, h0, h100⟩ := coverageValue_range (areaSum "crop" its)
    exact ⟨n, h0, h100, by rw [hcf, if_pos hnull, hn]⟩
  · intro hnull
    rw [getField_obj_eq] at hnull
    rw [hwf, if_neg (by simp [hnull]), getField_obj_eq]
  · intro hnull
    rw [getField_obj_eq] at hnull
    rw [hcf, if_neg (by simp [hnull]), getField_obj_eq]

/-- C4 counterexample: a parsed weedCoverage of 500 is kept at 500, outside
[0, 100], so coverage percentages are not clamped "regardless of input". -/
theorem c4_counterexample :
    normalizeResult "\x7b\"weedCoverage\":500,\"items\":[]\x7d" =
      some (.obj [("weedCoverage", .num (Dec.ofInt 500)), ("items", .arr []),
        ("healthyCropCoverage", .num (Dec.ofInt 0)),
        ("totalArea", .num (Dec.ofInt 100))]) ∧
    getField (.obj [("weedCoverage", .num (Dec.ofInt 500)), ("items", .arr []),
        ("healthyCropCoverage", .num (Dec.ofInt 0)),
        ("totalArea", .num (Dec.ofInt 100))]) "weedCoverage" =
      some (.num (Dec.ofInt 500)) ∧
    ¬ ((Dec.ofInt 500).val ≤ 100) := by
  refine ⟨rfl, rfl, ?_⟩
  rw [Dec.val_ofInt]
  norm_num

/-- Witness for c4_coverage_clamping on the payload with items = [] and
both coverage fields absent. -/
theorem c4_coverage_clamping_witness :
    (nullish (getField (.obj [("items", .arr [])]) "weedCoverage") = true →
      ∃ n : ℤ, 0 ≤ n ∧ n ≤ 100 ∧
        getField (.obj [("items", .arr []),
          ("weedCoverage", .num (Dec.ofInt 0)),
          ("healthyCropCoverage", .num (Dec.ofInt 0)),
          ("totalArea", .num (Dec.ofInt 100))]) "weedCoverage" =
          some (.num (Dec.ofInt n))) ∧
    (nullish (getField (.obj [("items", .arr [])]) "healthyCropCoverage") = true →
      ∃ n : ℤ, 0 ≤ n ∧ n ≤ 100 ∧
        getField (.obj [("items", .arr []),
          ("weedCoverage", .num (Dec.ofInt 0)),
          ("healthyCropCoverage", .num (Dec.ofInt 0)),
          ("totalArea", .num (Dec.ofInt 100))]) "healthyCropCoverage" =
          some (.num (Dec.ofInt n))) ∧
    (nullish (getField (.obj [("items", .arr [])]) "weedCoverage") = false →
      getField (.obj [("items", .arr []),
        ("weedCoverage", .num (Dec.ofInt 0)),
        ("healthyCropCoverage", .num (Dec.ofInt 0)),
        ("totalArea", .num (Dec.ofInt 100))]) "weedCoverage" =
        getField (.obj [("items", .arr [])]) "weedCoverage") ∧
    (nullish (getField (.obj [("items", .arr [])]) "healthyCropCoverage") = false →
      getField (.obj [("items", .arr []),
        ("weedCoverage", .num (Dec.ofInt 0)),
        ("healthyCropCoverage", .num (Dec.ofInt 0)),
        ("totalArea", .num (Dec.ofInt 100))]) "healthyCropCoverage" =
        getField (.obj [("items", .arr [])]) "healthyCropCoverage") :=
  c4_coverage_clamping (.obj [("items", .arr [])])
    (.obj [("items", .arr []),
      ("weedCoverage", .num (Dec.ofInt 0)),
      ("healthyCropCoverage", .num (Dec.ofInt 0)),
      ("totalArea", .num (Dec.ofInt 100))]) [] rfl rfl

/-- C5 (amended): backfilling of the three numeric fields is triggered by a
missing-or-null parsed value (not by "missing or not a valid number": a
present non-numeric value such as a string is kept as parsed), and only
runs at all when the parsed items field is an array; a present non-null
value is never overwritten. -/
theorem c5_backfill_trigger (j y : Json) (hb : backfill j = some y) :
    (nullish (getField j "weedCoverage") = false →
      getField y "weedCoverage" = getField j "weedCoverage") ∧
    (nullish (getField j "healthyCropCoverage") = false →
      getField y "healthyCropCoverage" = getField j "healthyCropCoverage") ∧
    (nullish (getField j "totalArea") = false →
      getField y "totalArea" = getField j "totalArea") ∧
    (∀ its, getField j "items" = some (.arr its) →
      (nullish (getField j "weedCoverage") = true →
        getField y "weedCoverage" =
          some (.num (coverageValue (areaSum "weed" its)))) ∧
      (nullish (getField j "healthyCropCoverage") = true →
        getField y "healthyCropCoverage" =
          some (.num (coverageValue (areaSum "crop" its)))) ∧
      (nullish (getField j "totalArea") = true →
        getField y "totalArea" = some (.num (Dec.ofInt 100)))) ∧
    ((∀ its, getField j "items" ≠ some (.arr its)) → y = j) := by
  by_cases harr : ∃ its, getField j "items" = some (.arr its)
  · obtain ⟨its, hit⟩ := harr
    obtain ⟨ms, rfl⟩ := getField_some_obj hit
    have hok := backfill_some_labelsOk hit hb
    obtain ⟨y', hb', hwf, hcf, htf, _⟩ := backfill_fields hit hok
    rw [hb] at hb'
    obtain rfl := Option.some.inj hb'
    refine ⟨?_, ?_, ?_, ?_, ?_⟩
    · intro hnull
      rw [getField_obj_eq] at hnull
      rw [hwf, if_neg (by simp [hnull]), getField_obj_eq]
    · intro hnull
      rw [getField_obj_eq] at hnull
      rw [hcf, if_neg (by simp [hnull]), getField_obj_eq]
    · intro hnull
      rw [getField_obj_eq] at hnull
      rw [htf, if_neg (by simp [hnull]), getField_obj_eq]
    · intro its2 hit2
      have hits : its2 = its := by
        rw [hit] at hit2
        exact (Json.arr.inj (Option.some.inj hit2)).symm
      subst hits
      refine ⟨?_, ?_, ?_⟩
      · intro hnull
        rw [getField_obj_eq] at hnull
        rw [hwf, if_pos hnull]
      · intro hnull
        rw [getField_obj_eq] at hnull
        rw [hcf, if_pos hnull]
      · intro hnull
        rw [getField_obj_eq] at hnull
        rw [htf, if_pos hnull]
    · intro habs
      exact absurd hit (habs its)
  · have hne : ∀ its, getField j "items" ≠ some (.arr its) :=
      fun its hc => harr ⟨its, hc⟩
    have := backfill_not_arr hne
    rw [this] at hb
    obtain rfl := Option.some.inj hb
    exact ⟨fun _ => rfl, fun _ => rfl, fun _ => rfl,
      fun its hit => absurd hit (hne its), fun _ => rfl⟩

/-- C5 counterexample: a parsed weedCoverage that is the string "n/a" (not
a valid number) is kept as the string, not backfilled; and with items
absent, even a missing weedCoverage is not backfilled at all. -/
theorem c5_counterexample :
    normalizeResult "\x7b\"items\":[],\"weedCoverage\":\"n/a\"\x7d" =
      some (.obj [("items", .arr []), ("weedCoverage", .str "n/a"),
        ("healthyCropCoverage", .num (Dec.ofInt 0)),
        ("totalArea", .num (Dec.ofInt 100))]) ∧
    Json.str "n/a" ≠ Json.num (Dec.ofInt 0) ∧
    normalizeResult "\x7b\"a\":1\x7d" = some (.obj [("a", .num (Dec.ofInt 1))]) ∧
    getField (.obj [("a", .num (Dec.ofInt 1))]) "weedCoverage" = none :=
  ⟨rfl, fun h => Json.noConfusion h, rfl, rfl⟩

/-- Witness for c5_backfill_trigger on the payload keeping the string
weedCoverage while backfilling the other two fields. -/
theorem c5_backfill_trigger_witness :
    (nullish (getField (.obj [("items", .arr []), ("weedCoverage", .str "n/a")])
        "weedCoverage") = false →
      getField (.obj [("items", .arr []), ("weedCoverage", .str "n/a"),
        ("healthyCropCoverage", .num (Dec.ofInt 0)),
        ("totalArea", .num (Dec.ofInt 100))]) "weedCoverage" =
      getField (.obj [("items", .arr []), ("weedCoverage", .str "n/a")])
        "weedCoverage") ∧
    (nullish (getField (.obj [("items", .arr []), ("weedCoverage", .str "n/a")])
        "healthyCropCoverage") = false →
      getField (.obj [("items", .arr []), ("weedCoverage", .str "n/a"),
        ("healthyCropCoverage", .num (Dec.ofInt 0)),
        ("totalArea", .num (Dec.ofInt 100))]) "healthyCropCoverage" =
      getField (.obj [("items", .arr []), ("weedCoverage", .str "n/a")])
        "healthyCropCoverage") ∧
    (nullish (getField (.obj [("items", .arr []), ("weedCoverage", .str "n/a")])
        "totalArea") = false →
      getField (.obj [("items", .arr []), ("weedCoverage", .str "n/a"),
        ("healthyCropCoverage", .num (Dec.ofInt 0)),
        ("totalArea", .num (Dec.ofInt 100))]) "totalArea" =
      getField (.obj [("items", .arr []), ("weedCoverage", .str "n/a")])
        "totalArea") ∧
    (∀ its, getField (.obj [("items", .arr []), ("weedCoverage", .str "n/a")])
        "items" = some (.arr its) →
      (nullish (getField (.obj [("items", .arr []), ("weedCoverage", .str "n/a")])
          "weedCoverage") = true →
        getField (.obj [("items", .arr []), ("weedCoverage", .str "n/a"),
          ("healthyCropCoverage", .num (Dec.ofInt 0)),
          ("totalArea", .num (Dec.ofInt 100))]) "weedCoverage" =
          some (.num (coverageValue (areaSum "weed" its)))) ∧
      (nullish (getField (.obj [("items", .arr []), ("weedCoverage", .str "n/a")])
          "healthyCropCoverage") = true →
        getField (.obj [("items", .arr []), ("weedCoverage", .str "n/a"),
          ("healthyCropCoverage", .num (Dec.ofInt 0)),
          ("totalArea", .num (Dec.ofInt 100))]) "healthyCropCoverage" =
          some (.num (coverageValue (areaSum "crop" its)))) ∧
      (nullish (getField (.obj [("items", .arr []), ("weedCoverage", .str "n/a")])
          "totalArea") = true →
        getField (.obj [("items", .arr []), ("weedCoverage", .str "n/a"),
          ("healthyCropCoverage", .num (Dec.ofInt 0)),
          ("totalArea", .num (Dec.ofInt 100))]) "totalArea" =
          some (.num (Dec.ofInt 100)))) ∧
    ((∀ its, getField (.obj [("items", .arr []), ("weedCoverage", .str "n/a")])
        "items" ≠ some (.arr its)) →
      (.obj [("items", .arr []), ("weedCoverage", .str "n/a"),
        ("healthyCropCoverage", .num (Dec.ofInt 0)),
        ("totalArea", .num (Dec.ofInt 100))] : Json) =
      .obj [("items", .arr []), ("weedCoverage", .str "n/a")]) :=
  c5_backfill_trigger (.obj [("items", .arr []), ("weedCoverage", .str "n/a")])
    (.obj [("items", .arr []), ("weedCoverage", .str "n/a"),
      ("healthyCropCoverage", .num (Dec.ofInt 0)),
      ("totalArea", .num (Dec.ofInt 100))]) rfl

/-- C6 (amended): on the parse path the normaliser leaves detectedItems and
recommendations exactly as parsed — an absent or non-sequence field stays
as it was, with no defaulting to an empty sequence — and totalArea defaults
to 100 only when the parsed items field is an array (and totalArea is
missing or null); when items is not an array, totalArea is also untouched. -/
theorem c6_defaults (j y : Json) (hb : backfill j = some y) :
    getField y "items" = getField j "items" ∧
    getField y "recommendations" = getField j "recommendations" ∧
    (∀ its, getField j "items" = some (.arr its) →
      nullish (getField j "totalArea") = true →
      getField y "totalArea" = some (.num (Dec.ofInt 100))) ∧
    ((∀ its, getField j "items" ≠ some (.arr its)) →
      getField y "totalArea" = getField j "totalArea") := by
  by_cases harr : ∃ its, getField j "items" = some (.arr its)
  · obtain ⟨its, hit⟩ := harr
    obtain ⟨ms, rfl⟩ := getField_some_obj hit
    have hok := backfill_some_labelsOk hit hb
    obtain ⟨y', hb', hwf, hcf, htf, hother⟩ := backfill_fields hit hok
    rw [hb] at hb'
    obtain rfl := Option.some.inj hb'
    refine ⟨?_, ?_, ?_, ?_⟩
    · rw [hother "items" (by decide) (by decide) (by decide), getField_obj_eq]
    · rw [hother "recommendations" (by decide) (by decide) (by decide),
        getField_obj_eq]
    · intro its2 hit2 hnull
      rw [getField_obj_eq] at hnull
      rw [htf, if_pos hnull]
    · intro habs
      exact absurd hit (habs its)
  · have hne : ∀ its, getField j "items" ≠ some (.arr its) :=
      fun its hc => harr ⟨its, hc⟩
    rw [backfill_not_arr hne] at hb
    obtain rfl := Option.some.inj hb
    exact ⟨rfl, rfl, fun its hit => absurd hit (hne its), fun _ => rfl⟩

/-- C6 counterexample: a parsed payload with items, recommendations and
totalArea all absent keeps all three absent — nothing defaults to an empty
sequence and totalArea does not default to 100. -/
theorem c6_counterexample :
    normalizeResult "\x7b\"a\":1\x7d" = some (.obj [("a", .num (Dec.ofInt 1))]) ∧
    getField (.obj [("a", .num (Dec.ofInt 1))]) "items" = none ∧
    getField (.obj [("a", .num (Dec.ofInt 1))]) "recommendations" = none ∧
    getField (.obj [("a", .num (Dec.ofInt 1))]) "totalArea" = none :=
  ⟨rfl, rfl, rfl, rfl⟩

/-- Witness for c6_defaults on the payload with items = [] and totalArea
absent. -/
theorem c6_defaults_witness :
    getField (.obj [("items", .arr []),
      ("weedCoverage", .num (Dec.ofInt 0)),
      ("healthyCropCoverage", .num (Dec.ofInt 0)),
      ("totalArea", .num (Dec.ofInt 100))]) "items" =
      getField (.obj [("items", .arr [])]) "items" ∧
    getField (.obj [("items", .arr []),
      ("weedCoverage", .num (Dec.ofInt 0)),
      ("healthyCropCoverage", .num (Dec.ofInt 0)),
      ("totalArea", .num (Dec.ofInt 100))]) "recommendations" =
      getField (.obj [("items", .arr [])]) "recommendations" ∧
    (∀ its, getField (.obj [("items", .arr [])]) "items" = some (.arr its) →
      nullish (getField (.obj [("items", .arr [])]) "totalArea") = true →
      getField (.obj [("items", .arr []),
        ("weedCoverage", .num (Dec.ofInt 0)),
        ("healthyCropCoverage", .num (Dec.ofInt 0)),
        ("totalArea", .num (Dec.ofInt 100))]) "totalArea" =
        some (.num (Dec.ofInt 100))) ∧
    ((∀ its, getField (.obj [("items", .arr [])]) "items" ≠ some (.arr its)) →
      getField (.obj [("items", .arr []),
        ("weedCoverage", .num (Dec.ofInt 0)),
        ("healthyCropCoverage", .num (Dec.ofInt 0)),
        ("totalArea", .num (Dec.ofInt 100))]) "totalArea" =
        getField (.obj [("items", .arr [])]) "totalArea") :=
  c6_defaults (.obj [("items", .arr [])])
    (.obj [("items", .arr []),
      ("weedCoverage", .num (Dec.ofInt 0)),
      ("healthyCropCoverage", .num (Dec.ofInt 0)),
      ("totalArea", .num (Dec.ofInt 100))]) rfl

theorem foldl_add_val (f : Json → Dec) (l : List Json) :
    ∀ a : Dec, (l.foldl (fun s it => s.add (f it)) a).val =
      a.val + (l.map (fun it => (f it).val)).sum := by
  induction l with
  | nil => intro a; simp
  | cons x xs ih =>
    intro a
    simp only [List.foldl_cons, List.map_cons, List.sum_cons]
    rw [ih, Dec.val_add]
    ring

theorem foldr_add_val (l : List Dec) :
    (l.foldr Dec.add (Dec.ofInt 0)).val = (l.map Dec.val).sum := by
  induction l with
  | nil => simp [Dec.val_ofInt]
  | cons x xs ih =>
    simp only [List.foldr_cons, List.map_cons, List.sum_cons]
    rw [Dec.val_add, ih]

theorem areaSum_val (needle : String) (its : List Json) :
    (areaSum needle its).val =
      ((its.filter (labelMatches needle)).map
        (fun it => (areaOf (getField it "box_2d")).val)).sum := by
  unfold areaSum
  rw [foldl_add_val]
  simp [Dec.val_ofInt]

theorem labelMatches_eq_ref {needle : String} {it : Json}
    (h : (labelOf it).isSome = true) :
    labelMatches needle it = infixCh needle.data (refLabel it).data := by
  unfold labelMatches refLabel
  cases it with
  | null => simp [labelOf] at h
  | obj ms =>
    simp only [labelOf] at h ⊢
    rcases hl : lookupKey ms "label" with _ | v
    · rfl
    · by_cases ht : truthy v = true
      · cases v with
        | str s => simp [ht]
        | null => simp [truthy] at ht
        | bool b => simp [ht] at h ⊢
        | num d => simp [ht] at h ⊢
        | arr xs => simp [ht] at h ⊢
        | obj ms2 => simp [ht] at h ⊢
      · cases v with
        | str s =>
          have hs : s = "" := by
            by_contra hne
            exact ht (by simp [truthy, hne])
          subst hs
          simp [ht, lowerStr]
        | null => simp [ht]
        | bool b => simp [ht]
        | num d => simp [ht]
        | arr xs => simp [truthy] at ht
        | obj ms2 => simp [truthy] at ht
  | bool b => rfl
  | num d => rfl
  | str s => rfl
  | arr xs => rfl

theorem filter_label_eq {needle : String} {its : List Json}
    (hok : labelsOk its = true) :
    its.filter (labelMatches needle) =
      its.filter (fun it => infixCh needle.data (refLabel it).data) := by
  apply List.filter_congr
  intro it hmem
  have hsome := (List.all_eq_true.mp hok) it hmem
  exact labelMatches_eq_ref (by simpa using hsome)

theorem coverageValue_eq_ref (needle : String) (its : List Json)
    (hok : labelsOk its = true) :
    coverageValue (areaSum needle its) = Dec.ofInt (refCoveragePercent needle its) := by
  unfold coverageValue refCoveragePercent
  congr 1
  rw [Dec.round_val, Dec.round_val]
  have hv : (Dec.maxD (Dec.ofInt 0) (Dec.minD (Dec.ofInt 100)
        ((areaSum needle its).mul (Dec.ofInt 100)))).val =
      (Dec.maxD (Dec.ofInt 0) (Dec.minD (Dec.ofInt 100)
        ((Dec.ofInt 100).mul
          (((its.filter (fun it => infixCh needle.data (refLabel it).data)).map
            (fun it => areaOf (getField it "box_2d"))).foldr Dec.add
              (Dec.ofInt 0))))).val := by
    rw [Dec.val_maxD, Dec.val_maxD, Dec.val_minD, Dec.val_minD,
      Dec.val_mul, Dec.val_mul, Dec.val_ofInt, Dec.val_ofInt]
    rw [areaSum_val, foldr_add_val, List.map_map, filter_label_eq hok]
    rw [mul_comm]
    rfl
  rw [hv]

/-- C3: when the weed (resp. crop) coverage field of the parsed payload is
missing or null and the items field is an array, the backfilled coverage
equals round(clamp_[0,100](100 × sum of area(box) over the items whose
label case-insensitively contains "weed" (resp. "crop"))); the claim's
scenario (one "Weed patch" item with box [100,100,300,300] giving 4) is
checked in the witness. -/
theorem c3_coverage_formula (j y : Json) (its : List Json)
    (hit : getField j "items" = some (.arr its))
    (hb : backfill j = some y)
    (hw : nullish (getField j "weedCoverage") = true)
    (hc : nullish (getField j "healthyCropCoverage") = true) :
    getField y "weedCoverage" =
      some (.num (Dec.ofInt (refCoveragePercent "weed" its))) ∧
    getField y "healthyCropCoverage" =
      some (.num (Dec.ofInt (refCoveragePercent "crop" its))) := by
  obtain ⟨ms, rfl⟩ := getField_some_obj hit
  have hok := backfill_some_labelsOk hit hb
  obtain ⟨y', hb', hwf, hcf, _, _⟩ := backfill_fields hit hok
  rw [hb] at hb'
  obtain rfl := Option.some.inj hb'
  rw [getField_obj_eq] at hw hc
  constructor
  · rw [hwf, if_pos hw, coverageValue_eq_ref _ _ hok]
  · rw [hcf, if_pos hc, coverageValue_eq_ref _ _ hok]

/-- Witness for c3_coverage_formula on the claim's scenario: one item
labelled "Weed patch" with box [100,100,300,300] yields weed coverage 4. -/
theorem c3_coverage_formula_witness :
    (getField (.obj [("items", .arr [.obj [("label", .str "Weed patch"),
        ("box_2d", .arr [.num (Dec.ofInt 100), .num (Dec.ofInt 100),
          .num (Dec.ofInt 300), .num (Dec.ofInt 300)])]]),
      ("weedCoverage", .num (Dec.ofInt 4)),
      ("healthyCropCoverage", .num (Dec.ofInt 0)),
      ("totalArea", .num (Dec.ofInt 100))]) "weedCoverage" =
      some (.num (Dec.ofInt (refCoveragePercent "weed"
        [.obj [("label", .str "Weed patch"),
          ("box_2d", .arr [.num (Dec.ofInt 100), .num (Dec.ofInt 100),
            .num (Dec.ofInt 300), .num (Dec.ofInt 300)])]]))) ∧
     getField (.obj [("items", .arr [.obj [("label", .str "Weed patch"),
        ("box_2d", .arr [.num (Dec.ofInt 100), .num (Dec.ofInt 100),
          .num (Dec.ofInt 300), .num (Dec.ofInt 300)])]]),
      ("weedCoverage", .num (Dec.ofInt 4)),
      ("healthyCropCoverage", .num (Dec.ofInt 0)),
      ("totalArea", .num (Dec.ofInt 100))]) "healthyCropCoverage" =
      some (.num (Dec.ofInt (refCoveragePercent "crop"
        [.obj [("label", .str "Weed patch"),
          ("box_2d", .arr [.num (Dec.ofInt 100), .num (Dec.ofInt 100),
            .num (Dec.ofInt 300), .num (Dec.ofInt 300)])]])))) ∧
    refCoveragePercent "weed"
      [.obj [("label", .str "Weed patch"),
        ("box_2d", .arr [.num (Dec.ofInt 100), .num (Dec.ofInt 100),
          .num (Dec.ofInt 300), .num (Dec.ofInt 300)])]] = 4 :=
  ⟨c3_coverage_formula
    (.obj [("items", .arr [.obj [("label", .str "Weed patch"),
      ("box_2d", .arr [.num (Dec.ofInt 100), .num (Dec.ofInt 100),
        .num (Dec.ofInt 300), .num (Dec.ofInt 300)])]])])
    (.obj [("items", .arr [.obj [("label", .str "Weed patch"),
        ("box_2d", .arr [.num (Dec.ofInt 100), .num (Dec.ofInt 100),
          .num (Dec.ofInt 300), .num (Dec.ofInt 300)])]]),
      ("weedCoverage", .num (Dec.ofInt 4)),
      ("healthyCropCoverage", .num (Dec.ofInt 0)),
      ("totalArea", .num (Dec.ofInt 100))])
    [.obj [("label", .str "Weed patch"),
      ("box_2d", .arr [.num (Dec.ofInt 100), .num (Dec.ofInt 100),
        .num (Dec.ofInt 300), .num (Dec.ofInt 300)])]]
    rfl rfl rfl rfl, by decide⟩

/-- C1 (amended): only a response with NO JSON-like span is absorbed by the
degrade-gracefully fallback — the record then completes with the fallback
payload (empty items, weed 0, crop 100, a non-empty recommendations list);
but when a span IS present and fails to parse, the exception escapes and
the record transitions to failed, not completed, refuting the original
claim for that case. -/
theorem c1_fallback_contract (s t : String) (p : List Char) (r : ImageRecord)
    (hspan : extractSpan s.data = none)
    (hspan2 : extractSpan t.data = some p)
    (hparse : parseJsonCh p = none) :
    (∃ y, normalizeResult s = some y ∧
      getField y "items" = some (.arr []) ∧
      getField y "weedCoverage" = some (.num (Dec.ofInt 0)) ∧
      getField y "healthyCropCoverage" = some (.num (Dec.ofInt 100)) ∧
      (∃ recs, getField y "recommendations" = some (.arr recs) ∧ recs ≠ []) ∧
      (analyzeImage r (.modelResponse s)).status = Status.completed) ∧
    normalizeResult t = none ∧
    (analyzeImage r (.modelResponse t)).status = Status.failed := by
  have hnorm : normalizeResult s =
      some (.obj [("items", .arr []),
        ("weedCoverage", .num (Dec.ofInt 0)),
        ("healthyCropCoverage", .num (Dec.ofInt 100)),
        ("recommendations", .arr [.str "Unable to analyze image details"]),
        ("totalArea", .num (Dec.ofInt 100))]) := by
    simp only [normalizeResult, hspan]
    rfl
  have hnone : normalizeResult t = none := by
    simp only [normalizeResult, hspan2, hparse]
  refine ⟨⟨_, hnorm, rfl, rfl, rfl,
    ⟨[.str "Unable to analyze image details"], rfl, by simp⟩, ?_⟩, hnone, ?_⟩
  · simp [analyzeImage, analyzeImageWrites, hnorm, applyWrite]
  · simp [analyzeImage, analyzeImageWrites, hnone, applyWrite]

/-- C1 counterexample: a response whose brace span fails JSON.parse marks
the record failed, while the claim requires completed. -/
theorem c1_counterexample :
    normalizeResult "\x7bbad\x7d" = none ∧
    (analyzeImage ⟨Status.processing, none, none⟩
      (.modelResponse "\x7bbad\x7d")).status = Status.failed :=
  ⟨rfl, rfl⟩

/-- Witness for c1_fallback_contract: a span-free response completes with
the fallback, a response with an unparseable span fails. -/
theorem c1_fallback_contract_witness :
    (∃ y, normalizeResult "no json here" = some y ∧
      getField y "items" = some (.arr []) ∧
      getField y "weedCoverage" = some (.num (Dec.ofInt 0)) ∧
      getField y "healthyCropCoverage" = some (.num (Dec.ofInt 100)) ∧
      (∃ recs, getField y "recommendations" = some (.arr recs) ∧ recs ≠ []) ∧
      (analyzeImage ⟨Status.processing, none, none⟩
        (.modelResponse "no json here")).status = Status.completed) ∧
    normalizeResult "\x7boops\x7d" = none ∧
    (analyzeImage ⟨Status.processing, none, none⟩
      (.modelResponse "\x7boops\x7d")).status = Status.failed :=
  c1_fallback_contract "no json here" "\x7boops\x7d" ("\x7boops\x7d".data)
    ⟨Status.processing, none, none⟩ rfl rfl rfl

/-- C8: starting from a processing record with no analysis stored, one
worker run performs exactly one persistence write, ends in a terminal
status, and at every observable state of the run the analysis columns are
present exactly when the status is completed — no partially-written
terminal state is observable. -/
theorem c8_single_terminal_write (r : ImageRecord) (i : WorkerInput)
    (hs : r.status = Status.processing) (ha : r.analysis_result = none)
    (hsd : r.segmentation_data = none) :
    (analyzeImageWrites i).length = 1 ∧
    ((analyzeImage r i).status = Status.completed ∨
      (analyzeImage r i).status = Status.failed) ∧
    ∀ r' ∈ workerTrace r i,
      (r'.segmentation_data ≠ none ↔ r'.status = Status.completed) ∧
      (r'.analysis_result ≠ none ↔ r'.status = Status.completed) := by
  obtain ⟨st, ar, sd⟩ := r
  simp only at hs ha hsd
  subst hs
  subst ha
  subst hsd
  cases i with
  | infraFail =>
    refine ⟨rfl, Or.inr rfl, ?_⟩
    intro r' hr'
    simp only [workerTrace, analyzeImageWrites, List.scanl, List.mem_cons,
      List.not_mem_nil, or_false] at hr'
    rcases hr' with rfl | rfl <;> simp [applyWrite]
  | modelResponse t =>
    rcases hn : normalizeResult t with _ | y
    · refine ⟨by simp [analyzeImageWrites, hn], ?_, ?_⟩
      · right
        simp [analyzeImage, analyzeImageWrites, hn, applyWrite]
      · intro r' hr'
        simp only [workerTrace, analyzeImageWrites, hn, List.scanl,
          List.mem_cons, List.not_mem_nil, or_false] at hr'
        rcases hr' with rfl | rfl <;> simp [applyWrite]
    · refine ⟨by simp [analyzeImageWrites, hn], ?_, ?_⟩
      · left
        simp [analyzeImage, analyzeImageWrites, hn, applyWrite]
      · intro r' hr'
        simp only [workerTrace, analyzeImageWrites, hn, List.scanl,
          List.mem_cons, List.not_mem_nil, or_false] at hr'
        rcases hr' with rfl | rfl <;> simp [applyWrite]

/-- Witness for c8_single_terminal_write on a fresh processing record and a
span-free model response. -/
theorem c8_single_terminal_write_witness :
    (analyzeImageWrites (.modelResponse "ok")).length = 1 ∧
    ((analyzeImage ⟨Status.processing, none, none⟩
        (.modelResponse "ok")).status = Status.completed ∨
      (analyzeImage ⟨Status.processing, none, none⟩
        (.modelResponse "ok")).status = Status.failed) ∧
    ∀ r' ∈ workerTrace ⟨Status.processing, none, none⟩ (.modelResponse "ok"),
      (r'.segmentation_data ≠ none ↔ r'.status = Status.completed) ∧
      (r'.analysis_result ≠ none ↔ r'.status = Status.completed) :=
  c8_single_terminal_write ⟨Status.processing, none, none⟩
    (.modelResponse "ok") rfl rfl rfl

/-- C9: when the record exists for this id and owner, the delete route
reports success and the record disappears from every subsequent
listByOwner result — and this holds for an arbitrary file-store state, in
particular when the backing file is already missing, since the unlink is
best-effort. -/
theorem c9_delete_removes (db : List StoredImage) (files : List String)
    (i uid : ℕ) (hex : (dbGetImage db i uid).isSome = true) :
    (deleteImageRoute db files i uid).deleted = true ∧
    ∀ uid2 r, r ∈ listByOwner (deleteImageRoute db files i uid).db uid2 →
      r.id ≠ i := by
  rcases hg : dbGetImage db i uid with _ | img
  · rw [hg] at hex
    simp at hex
  · refine ⟨by simp [deleteImageRoute, hg], ?_⟩
    intro uid2 r hr
    simp only [deleteImageRoute, hg, listByOwner] at hr
    have hr1 := List.mem_filter.mp hr
    have hr2 := List.mem_filter.mp hr1.1
    simpa using hr2.2

/-- Witness for c9_delete_removes: the backing file list is empty (the file
is already missing), yet the deletion succeeds and the record is gone. -/
theorem c9_delete_removes_witness :
    (deleteImageRoute [⟨1, 7, "uploads/img.jpg"⟩] [] 1 7).deleted = true ∧
    ∀ uid2 r, r ∈ listByOwner (deleteImageRoute [⟨1, 7, "uploads/img.jpg"⟩] [] 1 7).db uid2 →
      r.id ≠ 1 :=
  c9_delete_removes [⟨1, 7, "uploads/img.jpg"⟩] [] 1 7 rfl

/-- C10: on the processing-to-failed transition the worker's persistence
write modifies only the status column: analysis_result and
segmentation_data are exactly what they were before the failure. -/
theorem c10_failed_frame (r : ImageRecord) (t : String)
    (hn : normalizeResult t = none) :
    analyzeImage r .infraFail = { r with status := Status.failed } ∧
    analyzeImage r (.modelResponse t) = { r with status := Status.failed } := by
  constructor
  · rfl
  · simp only [analyzeImage, analyzeImageWrites, hn]
    rfl

/-- Witness for c10_failed_frame: a record that already carries raw output
and analysis keeps both unchanged through the failed write. -/
theorem c10_failed_frame_witness :
    analyzeImage ⟨Status.processing, some "raw", some "seg"⟩ .infraFail =
      { (⟨Status.processing, some "raw", some "seg"⟩ : ImageRecord) with
        status := Status.failed } ∧
    analyzeImage ⟨Status.processing, some "raw", some "seg"⟩
        (.modelResponse "\x7bzz\x7d") =
      { (⟨Status.processing, some "raw", some "seg"⟩ : ImageRecord) with
        status := Status.failed } :=
  c10_failed_frame ⟨Status.processing, some "raw", some "seg"⟩ "\x7bzz\x7d" rfl

theorem ntdf_append : ∀ (f n : ℕ) (acc : List Char), n < f →
    natToDigitsFuel f n acc = natToDigitsFuel f n [] ++ acc := by
  intro f
  induction f with
  | zero => intro n acc h; omega
  | succ f ih =>
    intro n acc h
    by_cases h10 : n < 10
    · simp [natToDigitsFuel, h10]
    · have hlt : n / 10 < f := by omega
      simp only [natToDigitsFuel, if_neg h10]
      rw [ih _ _ hlt, ih _ [digitChar (n % 10)] hlt, List.append_assoc]
      rfl

theorem ntdf_fuel : ∀ (f g n : ℕ) (acc : List Char), n < f → n < g →
    natToDigitsFuel f n acc = natToDigitsFuel g n acc := by
  intro f
  induction f with
  | zero => intro g n acc h; omega
  | succ f ih =>
    intro g n acc hf hg
    cases g with
    | zero => omega
    | succ g =>
      by_cases h10 : n < 10
      · simp [natToDigitsFuel, h10]
      · have h1 : n / 10 < f := by omega
        have h2 : n / 10 < g := by omega
        simp only [natToDigitsFuel, if_neg h10]
        exact ih _ _ _ h1 h2

theorem natToDigits_lt (n : ℕ) (h : n < 10) : natToDigits n = [digitChar n] := by
  simp [natToDigits, natToDigitsFuel, h]

theorem natToDigits_ge (n : ℕ) (h : 10 ≤ n) :
    natToDigits n = natToDigits (n / 10) ++ [digitChar (n % 10)] := by
  have h10 : ¬ n < 10 := by omega
  show natToDigitsFuel (n + 1) n [] =
    natToDigitsFuel (n / 10 + 1) (n / 10) [] ++ [digitChar (n % 10)]
  rw [show natToDigitsFuel (n + 1) n [] =
      natToDigitsFuel n (n / 10) [digitChar (n % 10)] from by
    simp [natToDigitsFuel, h10]]
  rw [ntdf_append n (n / 10) _ (by omega),
    ntdf_fuel n (n / 10 + 1) (n / 10) [] (by omega) (by omega)]

theorem digitChar_facts (d : ℕ) (h : d < 10) :
    (digitChar d).isDigit = true ∧ digitVal (digitChar d) = d ∧
    (1 ≤ d → digitChar d ≠ '0') := by
  interval_cases d <;> exact ⟨by decide, by decide, by intro h1; first | omega | decide⟩

theorem natToDigits_ne_nil (n : ℕ) : natToDigits n ≠ [] := by
  by_cases h : n < 10
  · rw [natToDigits_lt n h]
    simp
  · rw [natToDigits_ge n (by omega)]
    simp

theorem natToDigits_digits (n : ℕ) : ∀ c ∈ natToDigits n, c.isDigit = true := by
  induction n using Nat.strong_induction_on with
  | _ n ih =>
    by_cases h : n < 10
    · rw [natToDigits_lt n h]
      intro c hc
      rw [List.mem_singleton] at hc
      subst hc
      exact (digitChar_facts n h).1
    · rw [natToDigits_ge n (by omega)]
      intro c hc
      rcases List.mem_append.mp hc with hc | hc
      · exact ih (n / 10) (by omega) c hc
      · rw [List.mem_singleton] at hc
        subst hc
        exact (digitChar_facts (n % 10) (by omega)).1

theorem natToDigits_head (n : ℕ) (hn : 1 ≤ n) :
    ∃ c t, natToDigits n = c :: t ∧ c.isDigit = true ∧ c ≠ '0' := by
  induction n using Nat.strong_induction_on with
  | _ n ih =>
    by_cases h : n < 10
    · refine ⟨digitChar n, [], natToDigits_lt n h, (digitChar_facts n h).1,
        (digitChar_facts n h).2.2 hn⟩
    · obtain ⟨c, t, hct, hd, h0⟩ := ih (n / 10) (by omega) (by omega)
      exact ⟨c, t ++ [digitChar (n % 10)], by rw [natToDigits_ge n (by omega), hct]; rfl,
        hd, h0⟩

theorem digitsToNat_append (xs : List Char) (c : Char) :
    digitsToNat (xs ++ [c]) = 10 * digitsToNat xs + digitVal c := by
  unfold digitsToNat
  rw [List.foldl_append]
  simp [Nat.mul_comm]

theorem digitsToNat_natToDigits (n : ℕ) : digitsToNat (natToDigits n) = n := by
  induction n using Nat.strong_induction_on with
  | _ n ih =>
    by_cases h : n < 10
    · rw [natToDigits_lt n h]
      unfold digitsToNat
      simp [(digitChar_facts n h).2.1]
    · rw [natToDigits_ge n (by omega), digitsToNat_append,
        ih (n / 10) (by omega)]
      have := (digitChar_facts (n % 10) (by omega)).2.1
      omega

theorem natToDigits_length_le (n e : ℕ) (h : n < 10 ^ e) (he : 1 ≤ e) :
    (natToDigits n).length ≤ e := by
  induction e generalizing n with
  | zero => omega
  | succ e ih =>
    by_cases h10 : n < 10
    · rw [natToDigits_lt n h10]
      simp only [List.length_singleton]
      omega
    · have he' : 1 ≤ e := by
        by_contra hc
        have : e = 0 := by omega
        subst this
        simp at h
        omega
      rw [natToDigits_ge n (by omega)]
      rw [List.length_append]
      have : n / 10 < 10 ^ e := by
        rw [pow_succ] at h
        omega
      have := ih (n / 10) this he'
      simp only [List.length_singleton]
      omega

theorem takeWhile_append_all (p : Char → Bool) :
    ∀ (l rest : List Char), (∀ c ∈ l, p c = true) →
    (∀ c t, rest = c :: t → p c = false) →
    (l ++ rest).takeWhile p = l ∧ (l ++ rest).dropWhile p = rest := by
  intro l
  induction l with
  | nil =>
    intro rest _ hr
    cases rest with
    | nil => simp
    | cons c t => simp [List.takeWhile_cons, List.dropWhile_cons, hr c t rfl]
  | cons c l ih =>
    intro rest hl hr
    have hc := hl c (by simp)
    have hrec := ih rest (fun d hd => hl d (by simp [hd])) hr
    simp only [List.cons_append, List.takeWhile_cons, List.dropWhile_cons, hc,
      if_true]
    exact ⟨by rw [hrec.1], by rw [hrec.2]⟩

theorem digitsToNat_cons_zero (l : List Char) :
    digitsToNat ('0' :: l) = digitsToNat l := rfl

theorem digitsToNat_zeros (k : ℕ) (ds : List Char) :
    digitsToNat (List.replicate k '0' ++ ds) = digitsToNat ds := by
  induction k with
  | zero => rfl
  | succ k ih =>
    rw [List.replicate_succ, List.cons_append, digitsToNat_cons_zero]
    exact ih

theorem padLeft_spec (e : ℕ) (m : ℕ) (hm : m < 10 ^ e) (he : 1 ≤ e) :
    (padLeftZeros e (natToDigits m)).length = e ∧
    (∀ c ∈ padLeftZeros e (natToDigits m), c.isDigit = true) ∧
    digitsToNat (padLeftZeros e (natToDigits m)) = m ∧
    ∃ c t, padLeftZeros e (natToDigits m) = c :: t ∧ c.isDigit = true := by
  have hlen := natToDigits_length_le m e hm he
  refine ⟨?_, ?_, ?_, ?_⟩
  · unfold padLeftZeros
    rw [List.length_append, List.length_replicate]
    omega
  · intro c hc
    unfold padLeftZeros at hc
    rcases List.mem_append.mp hc with hc | hc
    · rw [List.eq_of_mem_replicate hc]
      decide
    · exact natToDigits_digits m c hc
  · unfold padLeftZeros
    rw [digitsToNat_zeros, digitsToNat_natToDigits]
  · rcases hsh : padLeftZeros e (natToDigits m) with _ | ⟨c, t⟩
    · exfalso
      have : (padLeftZeros e (natToDigits m)).length = e := by
        unfold padLeftZeros
        rw [List.length_append, List.length_replicate]
        omega
      rw [hsh] at this
      simp at this
      omega
    · refine ⟨c, t, rfl, ?_⟩
      have : c ∈ padLeftZeros e (natToDigits m) := by
        rw [hsh]
        simp
      unfold padLeftZeros at this
      rcases List.mem_append.mp this with hc | hc
      · rw [List.eq_of_mem_replicate hc]
        decide
      · exact natToDigits_digits m c hc

theorem mkDecNum_no_exp (sgnNeg : Bool) (i f0 l : ℕ) :
    mkDecNum sgnNeg i f0 l false 0 =
      canon (if sgnNeg then -((i : ℤ) * 10 ^ l + (f0 : ℤ))
        else ((i : ℤ) * 10 ^ l + (f0 : ℤ))) l := by
  unfold mkDecNum
  simp only [Bool.false_eq_true, if_false, pow_zero, mul_one]
  cases sgnNeg
  · simp
  · simp

theorem parseExpTail_stop (sgnNeg : Bool) (i f0 l : ℕ) (rest : List Char)
    (hr : NumStop rest) :
    parseExpTail sgnNeg i f0 l rest = some (mkDecNum sgnNeg i f0 l false 0, rest) := by
  cases rest with
  | nil => rfl
  | cons c t =>
    obtain ⟨hd, hdot, he, hE⟩ := hr
    unfold parseExpTail
    split
    · simp_all
    · simp_all
    · rfl

theorem parseNumTail_stop (sgnNeg : Bool) (i : ℕ) (rest : List Char)
    (hr : NumStop rest) :
    parseNumTail sgnNeg i rest = some (mkDecNum sgnNeg i 0 0 false 0, rest) := by
  cases rest with
  | nil => rfl
  | cons c t =>
    obtain ⟨hd, hdot, he, hE⟩ := hr
    unfold parseNumTail
    split
    · simp_all
    · exact parseExpTail_stop sgnNeg i 0 0 (c :: t) ⟨hd, hdot, he, hE⟩

theorem numStop_head {rest : List Char} (h : NumStop rest) :
    ∀ c t, rest = c :: t → c.isDigit = false := by
  intro c t he
  subst he
  exact h.1

theorem parseNumBody_digits (sgnNeg : Bool) (k : ℕ) (tail1 : List Char)
    (hstop : ∀ c t, tail1 = c :: t → c.isDigit = false) :
    parseNumBody sgnNeg (natToDigits k ++ tail1) = parseNumTail sgnNeg k tail1 := by
  rcases Nat.eq_zero_or_pos k with hk | hk
  · subst hk
    rw [natToDigits_lt 0 (by omega)]
    show parseNumBody sgnNeg (digitChar 0 :: tail1) = _
    have : digitChar 0 = '0' := by decide
    rw [this]
    rfl
  · obtain ⟨c, t, hct, hcd, hc0⟩ := natToDigits_head k hk
    rw [hct, List.cons_append]
    have hall : ∀ d ∈ t, d.isDigit = true := by
      intro d hd
      exact natToDigits_digits k d (by rw [hct]; simp [hd])
    obtain ⟨htake, hdrop⟩ := takeWhile_append_all _ t tail1 hall hstop
    show (if c = '0' then parseNumTail sgnNeg 0 (t ++ tail1)
      else if c.isDigit = true then
        parseNumTail sgnNeg
          (digitsToNat (c :: (t ++ tail1).takeWhile (fun x => x.isDigit)))
          ((t ++ tail1).dropWhile (fun x => x.isDigit))
      else none) = parseNumTail sgnNeg k tail1
    rw [if_neg hc0, if_pos hcd, htake, hdrop]
    rw [show c :: t = natToDigits k from hct.symm, digitsToNat_natToDigits]

theorem parseNumTail_frac (sgnNeg : Bool) (i e m : ℕ) (hm : m < 10 ^ e)
    (he : 1 ≤ e) (rest : List Char) (hr : NumStop rest) :
    parseNumTail sgnNeg i ('.' :: (padLeftZeros e (natToDigits m) ++ rest)) =
      some (mkDecNum sgnNeg i m e false 0, rest) := by
  obtain ⟨hlen, hdig, hval, c, t, hct, hcd⟩ := padLeft_spec e m hm he
  have hall : ∀ d ∈ c :: t, d.isDigit = true := by
    rw [← hct]
    exact hdig
  obtain ⟨htake, hdrop⟩ :=
    takeWhile_append_all (fun d => d.isDigit) (c :: t) rest hall (numStop_head hr)
  rw [hct, List.cons_append]
  show parseNumTail sgnNeg i ('.' :: c :: (t ++ rest)) = _
  unfold parseNumTail
  simp only [if_pos hcd]
  rw [show c :: (t ++ rest) = (c :: t) ++ rest from rfl, htake, hdrop]
  rw [show c :: t = padLeftZeros e (natToDigits m) from hct.symm, hval, hlen]
  exact parseExpTail_stop sgnNeg i m e rest hr

theorem parseNumBody_ser (sgnNeg : Bool) (n e : ℕ) (rest : List Char)
    (hr : NumStop rest) :
    parseNumBody sgnNeg (serNumNN n e ++ rest) =
      some (canon (if sgnNeg then -(n : ℤ) else (n : ℤ)) e, rest) := by
  rcases Nat.eq_zero_or_pos e with he | he
  · subst he
    rw [show serNumNN n 0 = natToDigits n from by unfold serNumNN; rw [if_pos rfl]]
    rw [parseNumBody_digits sgnNeg n rest (numStop_head hr),
      parseNumTail_stop sgnNeg n rest hr, mkDecNum_no_exp]
    have harg : ((n : ℤ) * 10 ^ 0 + ((0 : ℕ) : ℤ)) = (n : ℤ) := by
      rw [pow_zero]
      omega
    rw [harg]
  · have hser : serNumNN n e =
        natToDigits (n / 10 ^ e) ++ '.' :: padLeftZeros e (natToDigits (n % 10 ^ e)) := by
      unfold serNumNN
      rw [if_neg (by omega)]
    rw [hser, List.append_assoc, List.cons_append]
    rw [parseNumBody_digits sgnNeg (n / 10 ^ e) _
      (by intro c t hct; injection hct with h1 _; rw [← h1]; decide)]
    rw [parseNumTail_frac sgnNeg (n / 10 ^ e) e (n % 10 ^ e)
      (Nat.mod_lt n (by positivity)) he rest hr]
    rw [mkDecNum_no_exp]
    have harg : (((n / 10 ^ e : ℕ) : ℤ) * 10 ^ e + ((n % 10 ^ e : ℕ) : ℤ)) = (n : ℤ) := by
      have hdm : 10 ^ e * (n / 10 ^ e) + n % 10 ^ e = n := Nat.div_add_mod n (10 ^ e)
      have hc := congrArg (fun x : ℕ => (x : ℤ)) hdm
      simp only [Nat.cast_add, Nat.cast_mul, Nat.cast_pow, Nat.cast_ofNat] at hc
      linarith
    rw [harg]

theorem isDigit_ne {c : Char} (h : c.isDigit = true) (d : Char)
    (hd : d.isDigit = false) : c ≠ d := by
  intro he
  subst he
  rw [h] at hd
  cases hd

theorem wsChar_of_isDigit {c : Char} (h : c.isDigit = true) : wsChar c = false := by
  rcases hw : wsChar c with _ | _
  · rfl
  · exfalso
    simp only [wsChar, Bool.or_eq_true, decide_eq_true_eq] at hw
    rcases hw with ((h1 | h1) | h1) | h1 <;> (subst h1; simp at h)

theorem serNumNN_head (n e : ℕ) :
    ∃ c t, serNumNN n e = c :: t ∧ c.isDigit = true := by
  unfold serNumNN
  by_cases he : e = 0
  · rw [if_pos he]
    rcases hnd : natToDigits n with _ | ⟨c, t⟩
    · exact absurd hnd (natToDigits_ne_nil n)
    · exact ⟨c, t, rfl, natToDigits_digits n c (by rw [hnd]; simp)⟩
  · rw [if_neg he]
    rcases hnd : natToDigits (n / 10 ^ e) with _ | ⟨c, t⟩
    · exact absurd hnd (natToDigits_ne_nil _)
    · refine ⟨c, t ++ '.' :: padLeftZeros e (natToDigits (n % 10 ^ e)), rfl, ?_⟩
      exact natToDigits_digits _ c (by rw [hnd]; simp)

theorem parseNumber_not_neg (c : Char) (t : List Char) (hc : c ≠ '-') :
    parseNumber (c :: t) = parseNumBody false (c :: t) := by
  unfold parseNumber
  split
  · simp_all
  · rfl

theorem parseNum_ser (a : Dec) (ha : a.IsCanon) (rest : List Char)
    (hr : NumStop rest) : parseNumber (serNum a ++ rest) = some (a, rest) := by
  obtain ⟨m, e⟩ := a
  by_cases hm : m < 0
  · rw [show serNum ⟨m, e⟩ = '-' :: serNumNN m.natAbs e from by
      unfold serNum; rw [if_pos hm], List.cons_append]
    rw [show parseNumber ('-' :: (serNumNN m.natAbs e ++ rest)) =
      parseNumBody true (serNumNN m.natAbs e ++ rest) from rfl]
    rw [parseNumBody_ser true m.natAbs e rest hr, if_pos rfl]
    have habs : -((m.natAbs : ℤ)) = m := by omega
    rw [habs, canon_eq_of_isCanon ha]
  · rw [show serNum ⟨m, e⟩ = serNumNN m.natAbs e from by
      unfold serNum; rw [if_neg hm]]
    obtain ⟨c, t, hct, hcd⟩ := serNumNN_head m.natAbs e
    rw [hct, List.cons_append,
      parseNumber_not_neg c _ (isDigit_ne hcd '-' (by decide)),
      ← List.cons_append, ← hct,
      parseNumBody_ser false m.natAbs e rest hr,
      if_neg (by simp)]
    have habs : ((m.natAbs : ℤ)) = m := by omega
    rw [habs, canon_eq_of_isCanon ha]

theorem hexVal_hexDigitChar (d : ℕ) (h : d < 16) : hexVal (hexDigitChar d) = some d := by
  interval_cases d <;> decide

theorem skipWs_cons {c : Char} (h : wsChar c = false) (t : List Char) :
    skipWs (c :: t) = c :: t := by
  simp [skipWs, List.dropWhile_cons, h]

theorem parseStrAux_cons (f : ℕ) (c : Char) (t : List Char) :
    parseStrAux (f+1) (c :: t) =
    (if c = '"' then some ([], t)
    else if c = '\\' then
      match t with
      | [] => none
      | e :: t2 =>
        if e = 'u' then
          match t2 with
          | h1 :: h2 :: h3 :: h4 :: t3 =>
            match hexVal h1, hexVal h2, hexVal h3, hexVal h4 with
            | some a, some b, some c2, some d =>
              let n := ((a * 16 + b) * 16 + c2) * 16 + d
              if n < 55296 ∨ 57343 < n then
                match parseStrAux f t3 with
                | some (s, r) => some (Char.ofNat n :: s, r)
                | none => none
              else none
            | _, _, _, _ => none
          | _ => none
        else
          match unescapeChar e with
          | some ec =>
            match parseStrAux f t2 with
            | some (s, r) => some (ec :: s, r)
            | none => none
          | none => none
      else if c.toNat < 32 then none
      else
        match parseStrAux f t with
        | some (s, r) => some (c :: s, r)
        | none => none)
    := rfl

theorem escapeChar_length_pos (c : Char) : 1 ≤ (escapeChar c).length := by
  unfold escapeChar
  repeat' split
  all_goals simp

theorem escapeList_le (cs : List Char) : cs.length ≤ (escapeList cs).length := by
  induction cs with
  | nil => simp [escapeList]
  | cons c cs ih =>
    have h := escapeChar_length_pos c
    show (c :: cs).length ≤ (escapeChar c ++ escapeList cs).length
    simp only [List.length_cons, List.length_append]
    omega

theorem parseStrAux_escape : ∀ (cs : List Char) (f : ℕ), cs.length < f → ∀ (rest : List Char),
    parseStrAux f (escapeList cs ++ '"' :: rest) = some (cs, rest) := by
  intro cs
  induction cs with
  | nil =>
    intro f hf rest
    cases f with
    | zero => omega
    | succ f => exact rfl
  | cons c cs ih =>
    intro f hf rest
    cases f with
    | zero => omega
    | succ f =>
    have hcs : cs.length < f := by
      simp only [List.length_cons] at hf
      omega
    by_cases h1 : c = '"'
    · subst h1
      show (match parseStrAux f (escapeList cs ++ '"' :: rest) with
            | some (s, r) => some ('"' :: s, r)
            | none => none) = some ('"' :: cs, rest)
      rw [ih f hcs rest]
    · by_cases h2 : c = '\\'
      · subst h2
        show (match parseStrAux f (escapeList cs ++ '"' :: rest) with
              | some (s, r) => some ('\\' :: s, r)
              | none => none) = some ('\\' :: cs, rest)
        rw [ih f hcs rest]
      · by_cases h3 : c = bsC
        · subst h3
          show (match parseStrAux f (escapeList cs ++ '"' :: rest) with
                | some (s, r) => some (bsC :: s, r)
                | none => none) = some (bsC :: cs, rest)
          rw [ih f hcs rest]
        · by_cases h4 : c = '\t'
          · subst h4
            show (match parseStrAux f (escapeList cs ++ '"' :: rest) with
                  | some (s, r) => some ('\t' :: s, r)
                  | none => none) = some ('\t' :: cs, rest)
            rw [ih f hcs rest]
          · by_cases h5 : c = '\n'
            · subst h5
              show (match parseStrAux f (escapeList cs ++ '"' :: rest) with
                    | some (s, r) => some ('\n' :: s, r)
                    | none => none) = some ('\n' :: cs, rest)
              rw [ih f hcs rest]
            · by_cases h6 : c = ffC
              · subst h6
                show (match parseStrAux f (escapeList cs ++ '"' :: rest) with
                      | some (s, r) => some (ffC :: s, r)
                      | none => none) = some (ffC :: cs, rest)
                rw [ih f hcs rest]
              · by_cases h7 : c = '\r'
                · subst h7
                  show (match parseStrAux f (escapeList cs ++ '"' :: rest) with
                        | some (s, r) => some ('\r' :: s, r)
                        | none => none) = some ('\r' :: cs, rest)
                  rw [ih f hcs rest]
                · by_cases h8 : c.toNat < 32
                  · have hesc : escapeList (c :: cs) ++ '"' :: rest =
                        '\\' :: 'u' :: '0' :: '0' :: hexDigitChar (c.toNat / 16) ::
                          hexDigitChar (c.toNat % 16) :: (escapeList cs ++ '"' :: rest) := by
                      show (escapeChar c ++ escapeList cs) ++ '"' :: rest = _
                      rw [show escapeChar c = ['\\', 'u', '0', '0',
                            hexDigitChar (c.toNat / 16), hexDigitChar (c.toNat % 16)] from by
                        unfold escapeChar
                        rw [if_neg h1, if_neg h2, if_neg h3, if_neg h4, if_neg h5,
                          if_neg h6, if_neg h7, if_pos h8]]
                      rfl
                    rw [hesc]
                    have e1 : hexVal (hexDigitChar (c.toNat / 16)) = some (c.toNat / 16) :=
                      hexVal_hexDigitChar _ (by omega)
                    have e2 : hexVal (hexDigitChar (c.toNat % 16)) = some (c.toNat % 16) :=
                      hexVal_hexDigitChar _ (by omega)
                    show (match hexVal '0', hexVal '0', hexVal (hexDigitChar (c.toNat / 16)),
                            hexVal (hexDigitChar (c.toNat % 16)) with
                          | some a, some b, some c2, some d =>
                            let n := ((a * 16 + b) * 16 + c2) * 16 + d
                            if n < 55296 ∨ 57343 < n then
                              match parseStrAux f (escapeList cs ++ '"' :: rest) with
                              | some (s, r) => some (Char.ofNat n :: s, r)
                              | none => none
                            else none
                          | _, _, _, _ => none) = some (c :: cs, rest)
                    rw [e1, e2, show hexVal '0' = some 0 from rfl]
                    show (if ((0 * 16 + 0) * 16 + c.toNat / 16) * 16 + c.toNat % 16 < 55296 ∨
                            57343 < ((0 * 16 + 0) * 16 + c.toNat / 16) * 16 + c.toNat % 16 then
                            match parseStrAux f (escapeList cs ++ '"' :: rest) with
                            | some (s, r) => some (Char.ofNat (((0 * 16 + 0) * 16 +
                                c.toNat / 16) * 16 + c.toNat % 16) :: s, r)
                            | none => none
                          else none) = some (c :: cs, rest)
                    rw [show ((0 * 16 + 0) * 16 + c.toNat / 16) * 16 + c.toNat % 16 = c.toNat
                      from by omega]
                    rw [if_pos (Or.inl (by omega : c.toNat < 55296))]
                    rw [ih f hcs rest, Char.ofNat_toNat]
                  · have hesc2 : escapeChar c = [c] := by
                      unfold escapeChar
                      rw [if_neg h1, if_neg h2, if_neg h3, if_neg h4, if_neg h5,
                        if_neg h6, if_neg h7, if_neg h8]
                    have hlist : escapeList (c :: cs) ++ '"' :: rest =
                        c :: (escapeList cs ++ '"' :: rest) := by
                      show (escapeChar c ++ escapeList cs) ++ '"' :: rest = _
                      rw [hesc2]
                      rfl
                    rw [hlist, parseStrAux_cons]
                    rw [if_neg h1, if_neg h2, if_neg h8]
                    rw [ih f hcs rest]

theorem parseStringBody_escape (cs rest : List Char) :
    parseStringBody (escapeList cs ++ '"' :: rest) = some (cs, rest) := by
  have h := escapeList_le cs
  exact parseStrAux_escape cs _
    (by simp only [List.length_append, List.length_cons]; omega) rest

theorem parseVal_step (f : ℕ) (c : Char) (t : List Char) (hws : wsChar c = false) :
    parseVal (f+1) (c :: t) =
    (if c = lbraceC then
        match skipWs t with
        | [] => none
        | d :: t2 =>
          if d = rbraceC then some (.obj [], t2)
          else
            match parseMembers f (d :: t2) with
            | some (ms, r) => some (.obj (buildObj ms), r)
            | none => none
      else if c = '[' then
        match skipWs t with
        | [] => none
        | d :: t2 =>
          if d = ']' then some (.arr [], t2)
          else
            match parseElems f (d :: t2) with
            | some (xs, r) => some (.arr xs, r)
            | none => none
      else if c = '"' then
        match parseStringBody t with
        | some (s, r) => some (.str (String.mk s), r)
        | none => none
      else if c = 't' then
        match t with
        | 'r' :: 'u' :: 'e' :: r => some (.bool true, r)
        | _ => none
      else if c = 'f' then
        match t with
        | 'a' :: 'l' :: 's' :: 'e' :: r => some (.bool false, r)
        | _ => none
      else if c = 'n' then
        match t with
        | 'u' :: 'l' :: 'l' :: r => some (.null, r)
        | _ => none
      else
        match parseNumber (c :: t) with
        | some (q, r) => some (.num q, r)
        | none => none) := by
  rw [show parseVal (f+1) (c :: t) =
      (match skipWs (c :: t) with
      | [] => none
      | c' :: t' =>
        if c' = lbraceC then
          match skipWs t' with
          | [] => none
          | d :: t2 =>
            if d = rbraceC then some (.obj [], t2)
            else
              match parseMembers f (d :: t2) with
              | some (ms, r) => some (.obj (buildObj ms), r)
              | none => none
        else if c' = '[' then
          match skipWs t' with
          | [] => none
          | d :: t2 =>
            if d = ']' then some (.arr [], t2)
            else
              match parseElems f (d :: t2) with
              | some (xs, r) => some (.arr xs, r)
              | none => none
        else if c' = '"' then
          match parseStringBody t' with
          | some (s, r) => some (.str (String.mk s), r)
          | none => none
        else if c' = 't' then
          match t' with
          | 'r' :: 'u' :: 'e' :: r => some (.bool true, r)
          | _ => none
        else if c' = 'f' then
          match t' with
          | 'a' :: 'l' :: 's' :: 'e' :: r => some (.bool false, r)
          | _ => none
        else if c' = 'n' then
          match t' with
          | 'u' :: 'l' :: 'l' :: r => some (.null, r)
          | _ => none
        else
          match parseNumber (c' :: t') with
          | some (q, r) => some (.num q, r)
          | none => none) from rfl,
    skipWs_cons hws]

theorem parseElems_succ (f : ℕ) (cs : List Char) :
    parseElems (f+1) cs =
    match parseVal f cs with
    | none => none
    | some (v, r) =>
      match skipWs r with
      | [] => none
      | c :: t =>
        if c = ',' then
          match parseElems f t with
          | some (xs, r2) => some (v :: xs, r2)
          | none => none
        else if c = ']' then some ([v], t)
        else none
    := rfl

theorem parseMembers_step (f : ℕ) (c : Char) (t : List Char) (hws : wsChar c = false) :
    parseMembers (f+1) (c :: t) =
    (if c = '"' then
      match parseStringBody t with
      | some (k, r) =>
        match skipWs r with
        | [] => none
        | d :: t2 =>
          if d = ':' then
            match parseVal f t2 with
            | some (v, r2) =>
              match skipWs r2 with
              | [] => none
              | e :: t3 =>
                if e = ',' then
                  match parseMembers f t3 with
                  | some (ms, r3) => some ((String.mk k, v) :: ms, r3)
                  | none => none
                else if e = rbraceC then some ([(String.mk k, v)], t3)
                else none
            | none => none
          else none
      | none => none
    else none) := by
  rw [show parseMembers (f+1) (c :: t) =
      (match skipWs (c :: t) with
      | [] => none
      | c' :: t' =>
        if c' = '"' then
          match parseStringBody t' with
          | some (k, r) =>
            match skipWs r with
            | [] => none
            | d :: t2 =>
              if d = ':' then
                match parseVal f t2 with
                | some (v, r2) =>
                  match skipWs r2 with
                  | [] => none
                  | e :: t3 =>
                    if e = ',' then
                      match parseMembers f t3 with
                      | some (ms, r3) => some ((String.mk k, v) :: ms, r3)
                      | none => none
                    else if e = rbraceC then some ([(String.mk k, v)], t3)
                    else none
                | none => none
              else none
          | none => none
        else none) from rfl,
    skipWs_cons hws]

theorem serNum_head (d : Dec) : ∃ c t, serNum d = c :: t ∧ (c = '-' ∨ c.isDigit = true) := by
  obtain ⟨m, e⟩ := d
  by_cases hm : m < 0
  · exact ⟨'-', serNumNN m.natAbs e, by unfold serNum; rw [if_pos hm], Or.inl rfl⟩
  · obtain ⟨c, t, hct, hcd⟩ := serNumNN_head m.natAbs e
    exact ⟨c, t, by unfold serNum; rw [if_neg hm]; exact hct, Or.inr hcd⟩

theorem num_head_ne (c : Char) (hc : c = '-' ∨ c.isDigit = true) :
    wsChar c = false ∧ c ≠ lbraceC ∧ c ≠ '[' ∧ c ≠ '"' ∧ c ≠ 't' ∧ c ≠ 'f' ∧ c ≠ 'n' := by
  rcases hc with rfl | hd
  · exact ⟨by decide, by decide, by decide, by decide, by decide, by decide, by decide⟩
  · exact ⟨wsChar_of_isDigit hd, isDigit_ne hd _ (by decide), isDigit_ne hd _ (by decide),
      isDigit_ne hd _ (by decide), isDigit_ne hd _ (by decide), isDigit_ne hd _ (by decide),
      isDigit_ne hd _ (by decide)⟩

theorem serJson_head (v : Json) : ∃ c t, serJson v = c :: t ∧ wsChar c = false ∧ c ≠ ']' := by
  cases v with
  | null => exact ⟨'n', _, rfl, by decide, by decide⟩
  | bool b =>
    cases b with
    | false => exact ⟨'f', _, rfl, by decide, by decide⟩
    | true => exact ⟨'t', _, rfl, by decide, by decide⟩
  | num d =>
    obtain ⟨c, t, hct, hc⟩ := serNum_head d
    refine ⟨c, t, hct, ?_, ?_⟩
    · rcases hc with rfl | hd
      · decide
      · exact wsChar_of_isDigit hd
    · rcases hc with rfl | hd
      · decide
      · exact isDigit_ne hd _ (by decide)
  | str s => exact ⟨'"', _, rfl, by decide, by decide⟩
  | arr xs => exact ⟨'[', _, rfl, by decide, by decide⟩
  | obj ms => exact ⟨lbraceC, _, rfl, by decide, by decide⟩

theorem serElems_cons_head (x : Json) (xs : List Json) :
    ∃ c t, serElems (x :: xs) = c :: t ∧ wsChar c = false ∧ c ≠ ']' := by
  obtain ⟨c, t, hx, hws, hne⟩ := serJson_head x
  cases xs with
  | nil => exact ⟨c, t, by show serJson x = _; exact hx, hws, hne⟩
  | cons y ys =>
    refine ⟨c, t ++ ',' :: serElems (y :: ys), ?_, hws, hne⟩
    show serJson x ++ ',' :: serElems (y :: ys) = _
    rw [hx]
    rfl

theorem serMembers_head (k : String) (v : Json) (ms : List (String × Json)) :
    ∃ t, serMembers ((k, v) :: ms) = '"' :: t := by
  cases ms with
  | nil => exact ⟨_, rfl⟩
  | cons m ms => exact ⟨_, rfl⟩

theorem numStop_of_sepOk {rest : List Char} (h : SepOk rest) : NumStop rest := by
  rcases h with rfl | ⟨c, t, rfl, hc | hc | hc⟩
  · trivial
  · subst hc; exact ⟨by decide, by decide, by decide, by decide⟩
  · subst hc; exact ⟨by decide, by decide, by decide, by decide⟩
  · subst hc; exact ⟨by decide, by decide, by decide, by decide⟩

theorem setKey_of_not_mem (ms : List (String × Json)) (k : String) (v : Json)
    (h : k ∉ ms.map Prod.fst) : setKey ms k v = ms ++ [(k, v)] := by
  induction ms with
  | nil => rfl
  | cons m ms ih =>
    obtain ⟨k0, v0⟩ := m
    simp only [List.map_cons, List.mem_cons] at h
    push_neg at h
    show (if k0 = k then (k0, v) :: ms else (k0, v0) :: setKey ms k v) = _
    rw [if_neg (fun he => h.1 he.symm), ih h.2]
    rfl

theorem buildObj_acc (ms : List (String × Json)) : ∀ acc : List (String × Json),
    (acc.map Prod.fst ++ ms.map Prod.fst).Nodup →
    ms.foldl (fun a kv => setKey a kv.1 kv.2) acc = acc ++ ms := by
  induction ms with
  | nil => intro acc _; simp
  | cons m ms ih =>
    intro acc hnd
    obtain ⟨k, v⟩ := m
    have hk : k ∉ acc.map Prod.fst := by
      simp only [List.map_cons, List.nodup_append] at hnd
      intro hmem
      exact hnd.2.2 hmem (by simp)
    show List.foldl (fun a kv => setKey a kv.1 kv.2) (setKey acc k v) ms = _
    rw [setKey_of_not_mem acc k v hk, ih (acc ++ [(k, v)]) (by
      simp only [List.map_append, List.map_cons, List.map_nil] at hnd ⊢
      simpa [List.append_assoc] using hnd)]
    simp

theorem buildObj_nodup (ms : List (String × Json))
    (h : (ms.map Prod.fst).Nodup) : buildObj ms = ms := by
  unfold buildObj
  have := buildObj_acc ms [] (by simpa using h)
  simpa using this

theorem parse_ser : ∀ f : ℕ,
    (∀ (v : Json) (rest : List Char), WfJ v → sizeJ v < f → SepOk rest →
      parseVal f (serJson v ++ rest) = some (v, rest)) ∧
    (∀ (xs : List Json) (rest : List Char), (∀ x ∈ xs, WfJ x) → xs ≠ [] → sizeA xs < f →
      parseElems f (serElems xs ++ ']' :: rest) = some (xs, rest)) ∧
    (∀ (ms : List (String × Json)) (rest : List Char), (∀ kv ∈ ms, WfJ kv.2) → ms ≠ [] →
      sizeM ms < f →
      parseMembers f (serMembers ms ++ rbraceC :: rest) = some (ms, rest)) := by
  intro f
  induction f with
  | zero =>
    exact ⟨fun v rest _ hs _ => absurd hs (by omega),
      fun xs rest _ _ hs => absurd hs (by omega),
      fun ms rest _ _ hs => absurd hs (by omega)⟩
  | succ f ih =>
    obtain ⟨ihP, ihQ, ihR⟩ := ih
    refine ⟨?_, ?_, ?_⟩
    · intro v rest hw hs hr
      cases v with
      | null => exact rfl
      | bool b => cases b <;> exact rfl
      | num d =>
        have hc : d.IsCanon := by cases hw with | num _ h => exact h
        obtain ⟨c, t, hct, hhd⟩ := serNum_head d
        obtain ⟨hws, h1, h2, h3, h4, h5, h6⟩ := num_head_ne c hhd
        rw [show serJson (.num d) ++ rest = c :: (t ++ rest) from by
          show serNum d ++ rest = _; rw [hct]; rfl]
        rw [parseVal_step f c (t ++ rest) hws]
        rw [if_neg h1, if_neg h2, if_neg h3, if_neg h4, if_neg h5, if_neg h6]
        rw [show c :: (t ++ rest) = serNum d ++ rest from by rw [hct]; rfl]
        rw [parseNum_ser d hc rest (numStop_of_sepOk hr)]
      | str s =>
        rw [show serJson (.str s) ++ rest = '"' :: (escapeList s.data ++ '"' :: rest) from by
          show ('"' :: escapeList s.data ++ ['"']) ++ rest = _
          simp [List.append_assoc]]
        show (match parseStringBody (escapeList s.data ++ '"' :: rest) with
              | some (s', r) => some (Json.str (String.mk s'), r)
              | none => none) = some (Json.str s, rest)
        rw [parseStringBody_escape s.data rest]
      | arr xs =>
        cases xs with
        | nil => exact rfl
        | cons x xs =>
          have hall : ∀ z ∈ x :: xs, WfJ z := by cases hw with | arr _ h => exact h
          have hsz : sizeA (x :: xs) < f := by
            have : sizeJ (.arr (x :: xs)) = 1 + sizeA (x :: xs) := rfl
            omega
          obtain ⟨c0, t0, he, hws0, hne0⟩ := serElems_cons_head x xs
          rw [show serJson (.arr (x :: xs)) ++ rest =
              '[' :: (serElems (x :: xs) ++ ']' :: rest) from by
            show ('[' :: serElems (x :: xs) ++ [']']) ++ rest = _
            simp [List.append_assoc]]
          rw [parseVal_step f '[' _ (by decide)]
          rw [if_neg (by decide), if_pos rfl]
          have hin2 : serElems (x :: xs) ++ ']' :: rest = c0 :: (t0 ++ ']' :: rest) := by
            rw [he]; rfl
          rw [hin2, skipWs_cons hws0]
          show (if c0 = ']' then some (Json.arr [], t0 ++ ']' :: rest)
                else match parseElems f (c0 :: (t0 ++ ']' :: rest)) with
                  | some (xs', r) => some (.arr xs', r)
                  | none => none) = some (.arr (x :: xs), rest)
          rw [if_neg hne0, ← hin2]
          rw [ihQ (x :: xs) rest hall (List.cons_ne_nil x xs) hsz]
      | obj ms =>
        cases ms with
        | nil => exact rfl
        | cons m ms =>
          obtain ⟨k, v⟩ := m
          have hnd : (((k, v) :: ms).map Prod.fst).Nodup := by
            cases hw with | obj _ h _ => exact h
          have hall : ∀ kv ∈ (k, v) :: ms, WfJ kv.2 := by
            cases hw with | obj _ _ h => exact h
          have hsz : sizeM ((k, v) :: ms) < f := by
            have : sizeJ (.obj ((k, v) :: ms)) = 1 + sizeM ((k, v) :: ms) := rfl
            omega
          obtain ⟨t0, hsm⟩ := serMembers_head k v ms
          rw [show serJson (.obj ((k, v) :: ms)) ++ rest =
              lbraceC :: (serMembers ((k, v) :: ms) ++ rbraceC :: rest) from by
            show (lbraceC :: serMembers ((k, v) :: ms) ++ [rbraceC]) ++ rest = _
            simp [List.append_assoc]]
          rw [parseVal_step f lbraceC _ (by decide)]
          rw [if_pos rfl]
          have hin2 : serMembers ((k, v) :: ms) ++ rbraceC :: rest =
              '"' :: (t0 ++ rbraceC :: rest) := by
            rw [hsm]; rfl
          rw [hin2, skipWs_cons (by decide)]
          show (if ('"' : Char) = rbraceC then some (Json.obj [], t0 ++ rbraceC :: rest)
                else match parseMembers f ('"' :: (t0 ++ rbraceC :: rest)) with
                  | some (ms', r) => some (.obj (buildObj ms'), r)
                  | none => none) = some (.obj ((k, v) :: ms), rest)
          rw [if_neg (by decide), ← hin2]
          rw [ihR ((k, v) :: ms) rest hall (List.cons_ne_nil _ _) hsz]
          show some (Json.obj (buildObj ((k, v) :: ms)), rest) =
            some (.obj ((k, v) :: ms), rest)
          rw [buildObj_nodup _ hnd]
    · intro xs rest hall hne hsz
      cases xs with
      | nil => exact absurd rfl hne
      | cons x xs =>
        have hWx : WfJ x := hall x (List.mem_cons_self x xs)
        have hszx : sizeJ x < f := by
          have : sizeA (x :: xs) = 1 + sizeJ x + sizeA xs := rfl
          omega
        cases xs with
        | nil =>
          rw [parseElems_succ]
          rw [show serElems [x] ++ ']' :: rest = serJson x ++ ']' :: rest from rfl]
          rw [ihP x (']' :: rest) hWx hszx (Or.inr ⟨']', rest, rfl, Or.inr (Or.inl rfl)⟩)]
          show (match skipWs (']' :: rest) with
                | [] => none
                | c :: t =>
                  if c = ',' then
                    match parseElems f t with
                    | some (xs', r2) => some (x :: xs', r2)
                    | none => none
                  else if c = ']' then some ([x], t)
                  else none) = some ([x], rest)
          rw [skipWs_cons (by decide)]
          rfl
        | cons y ys =>
          have hally : ∀ z ∈ y :: ys, WfJ z := fun z hz => hall z (List.mem_cons_of_mem x hz)
          have hszy : sizeA (y :: ys) < f := by
            have : sizeA (x :: y :: ys) = 1 + sizeJ x + sizeA (y :: ys) := rfl
            omega
          rw [parseElems_succ]
          rw [show serElems (x :: y :: ys) ++ ']' :: rest =
              serJson x ++ (',' :: (serElems (y :: ys) ++ ']' :: rest)) from by
            show (serJson x ++ ',' :: serElems (y :: ys)) ++ ']' :: rest = _
            simp [List.append_assoc]]
          rw [ihP x _ hWx hszx (Or.inr ⟨',', _, rfl, Or.inl rfl⟩)]
          show (match skipWs (',' :: (serElems (y :: ys) ++ ']' :: rest)) with
                | [] => none
                | c :: t =>
                  if c = ',' then
                    match parseElems f t with
                    | some (xs', r2) => some (x :: xs', r2)
                    | none => none
                  else if c = ']' then some ([x], t)
                  else none) = some (x :: y :: ys, rest)
          rw [skipWs_cons (by decide)]
          show (match parseElems f (serElems (y :: ys) ++ ']' :: rest) with
                | some (xs', r2) => some (x :: xs', r2)
                | none => none) = some (x :: y :: ys, rest)
          rw [ihQ (y :: ys) rest hally (List.cons_ne_nil _ _) hszy]
    · intro ms rest hall hne hsz
      cases ms with
      | nil => exact absurd rfl hne
      | cons kv ms =>
        obtain ⟨k, v⟩ := kv
        have hWv : WfJ v := hall (k, v) (List.mem_cons_self _ _)
        have hszv : sizeJ v < f := by
          have : sizeM ((k, v) :: ms) = 1 + sizeJ v + sizeM ms := rfl
          omega
        cases ms with
        | nil =>
          rw [show serMembers [(k, v)] ++ rbraceC :: rest =
              '"' :: (escapeList k.data ++ '"' :: (':' :: (serJson v ++ rbraceC :: rest)))
              from by
            show (('"' :: escapeList k.data ++ ['"']) ++ ':' :: serJson v) ++
              rbraceC :: rest = _
            simp [List.append_assoc]]
          rw [parseMembers_step f '"' _ (by decide), if_pos rfl]
          rw [parseStringBody_escape k.data (':' :: (serJson v ++ rbraceC :: rest))]
          show (match skipWs (':' :: (serJson v ++ rbraceC :: rest)) with
                | [] => none
                | d :: t2 =>
                  if d = ':' then
                    match parseVal f t2 with
                    | some (v', r2) =>
                      match skipWs r2 with
                      | [] => none
                      | e :: t3 =>
                        if e = ',' then
                          match parseMembers f t3 with
                          | some (ms', r3) => some ((String.mk k.data, v') :: ms', r3)
                          | none => none
                        else if e = rbraceC then some ([(String.mk k.data, v')], t3)
                        else none
                    | none => none
                  else none) = some ([(k, v)], rest)
          rw [skipWs_cons (by decide)]
          show (match parseVal f (serJson v ++ rbraceC :: rest) with
                | some (v', r2) =>
                  match skipWs r2 with
                  | [] => none
                  | e :: t3 =>
                    if e = ',' then
                      match parseMembers f t3 with
                      | some (ms', r3) => some ((String.mk k.data, v') :: ms', r3)
                      | none => none
                    else if e = rbraceC then some ([(String.mk k.data, v')], t3)
                    else none
                | none => none) = some ([(k, v)], rest)
          rw [ihP v (rbraceC :: rest) hWv hszv
            (Or.inr ⟨rbraceC, rest, rfl, Or.inr (Or.inr rfl)⟩)]
          show (match skipWs (rbraceC :: rest) with
                | [] => none
                | e :: t3 =>
                  if e = ',' then
                    match parseMembers f t3 with
                    | some (ms', r3) => some ((String.mk k.data, v) :: ms', r3)
                    | none => none
                  else if e = rbraceC then some ([(String.mk k.data, v)], t3)
                  else none) = some ([(k, v)], rest)
          rw [skipWs_cons (by decide)]
          rfl
        | cons kv2 ms2 =>
          have hall2 : ∀ kv ∈ kv2 :: ms2, WfJ kv.2 :=
            fun z hz => hall z (List.mem_cons_of_mem _ hz)
          have hsz2 : sizeM (kv2 :: ms2) < f := by
            have : sizeM ((k, v) :: kv2 :: ms2) = 1 + sizeJ v + sizeM (kv2 :: ms2) := rfl
            omega
          rw [show serMembers ((k, v) :: kv2 :: ms2) ++ rbraceC :: rest =
              '"' :: (escapeList k.data ++ '"' :: (':' :: (serJson v ++
                (',' :: (serMembers (kv2 :: ms2) ++ rbraceC :: rest))))) from by
            show (('"' :: escapeList k.data ++ ['"']) ++ ':' :: serJson v ++
              ',' :: serMembers (kv2 :: ms2)) ++ rbraceC :: rest = _
            simp [List.append_assoc]]
          rw [parseMembers_step f '"' _ (by decide), if_pos rfl]
          rw [parseStringBody_escape k.data
            (':' :: (serJson v ++ (',' :: (serMembers (kv2 :: ms2) ++ rbraceC :: rest))))]
          show (match skipWs (':' :: (serJson v ++
                  (',' :: (serMembers (kv2 :: ms2) ++ rbraceC :: rest)))) with
                | [] => none
                | d :: t2 =>
                  if d = ':' then
                    match parseVal f t2 with
                    | some (v', r2) =>
                      match skipWs r2 with
                      | [] => none
                      | e :: t3 =>
                        if e = ',' then
                          match parseMembers f t3 with
                          | some (ms', r3) => some ((String.mk k.data, v') :: ms', r3)
                          | none => none
                        else if e = rbraceC then some ([(String.mk k.data, v')], t3)
                        else none
                    | none => none
                  else none) = some ((k, v) :: kv2 :: ms2, rest)
          rw [skipWs_cons (by decide)]
          show (match parseVal f (serJson v ++
                  (',' :: (serMembers (kv2 :: ms2) ++ rbraceC :: rest))) with
                | some (v', r2) =>
                  match skipWs r2 with
                  | [] => none
                  | e :: t3 =>
                    if e = ',' then
                      match parseMembers f t3 with
                      | some (ms', r3) => some ((String.mk k.data, v') :: ms', r3)
                      | none => none
                    else if e = rbraceC then some ([(String.mk k.data, v')], t3)
                    else none
                | none => none) = some ((k, v) :: kv2 :: ms2, rest)
          rw [ihP v (',' :: (serMembers (kv2 :: ms2) ++ rbraceC :: rest)) hWv hszv
            (Or.inr ⟨',', _, rfl, Or.inl rfl⟩)]
          show (match skipWs (',' :: (serMembers (kv2 :: ms2) ++ rbraceC :: rest)) with
                | [] => none
                | e :: t3 =>
                  if e = ',' then
                    match parseMembers f t3 with
                    | some (ms', r3) => some ((String.mk k.data, v) :: ms', r3)
                    | none => none
                  else if e = rbraceC then some ([(String.mk k.data, v)], t3)
                  else none) = some ((k, v) :: kv2 :: ms2, rest)
          rw [skipWs_cons (by decide)]
          show (match parseMembers f (serMembers (kv2 :: ms2) ++ rbraceC :: rest) with
                | some (ms', r3) => some ((String.mk k.data, v) :: ms', r3)
                | none => none) = some ((k, v) :: kv2 :: ms2, rest)
          rw [ihR (kv2 :: ms2) rest hall2 (List.cons_ne_nil _ _) hsz2]

theorem parseVal_succ (f : ℕ) (cs : List Char) :
    parseVal (f+1) cs =
    match skipWs cs with
    | [] => none
    | c :: t =>
      if c = lbraceC then
        match skipWs t with
        | [] => none
        | d :: t2 =>
          if d = rbraceC then some (.obj [], t2)
          else
            match parseMembers f (d :: t2) with
            | some (ms, r) => some (.obj (buildObj ms), r)
            | none => none
      else if c = '[' then
        match skipWs t with
        | [] => none
        | d :: t2 =>
          if d = ']' then some (.arr [], t2)
          else
            match parseElems f (d :: t2) with
            | some (xs, r) => some (.arr xs, r)
            | none => none
      else if c = '"' then
        match parseStringBody t with
        | some (s, r) => some (.str (String.mk s), r)
        | none => none
      else if c = 't' then
        match t with
        | 'r' :: 'u' :: 'e' :: r => some (.bool true, r)
        | _ => none
      else if c = 'f' then
        match t with
        | 'a' :: 'l' :: 's' :: 'e' :: r => some (.bool false, r)
        | _ => none
      else if c = 'n' then
        match t with
        | 'u' :: 'l' :: 'l' :: r => some (.null, r)
        | _ => none
      else
        match parseNumber (c :: t) with
        | some (q, r) => some (.num q, r)
        | none => none
    := rfl

theorem parseMembers_succ (f : ℕ) (cs : List Char) :
    parseMembers (f+1) cs =
    match skipWs cs with
    | [] => none
    | c :: t =>
      if c = '"' then
        match parseStringBody t with
        | some (k, r) =>
          match skipWs r with
          | [] => none
          | d :: t2 =>
            if d = ':' then
              match parseVal f t2 with
              | some (v, r2) =>
                match skipWs r2 with
                | [] => none
                | e :: t3 =>
                  if e = ',' then
                    match parseMembers f t3 with
                    | some (ms, r3) => some ((String.mk k, v) :: ms, r3)
                    | none => none
                  else if e = rbraceC then some ([(String.mk k, v)], t3)
                  else none
              | none => none
            else none
        | none => none
      else none
    := rfl

theorem mkDecNum_isCanon (s : Bool) (i f0 l : ℕ) (en : Bool) (ea : ℕ) :
    (mkDecNum s i f0 l en ea).IsCanon := by
  cases en with
  | true => exact canon_isCanon _ _
  | false => exact canon_isCanon _ _

theorem parseExpDigits_isCanon {s : Bool} {i f0 l : ℕ} {t : List Char} {d : Dec}
    {r : List Char} (h : parseExpDigits s i f0 l t = some (d, r)) : d.IsCanon := by
  unfold parseExpDigits at h
  repeat' split at h
  all_goals first
    | exact Option.noConfusion h
    | (simp only [Option.some.injEq, Prod.mk.injEq] at h
       obtain ⟨rfl, rfl⟩ := h
       exact mkDecNum_isCanon _ _ _ _ _ _)

theorem parseExpTail_isCanon {s : Bool} {i f0 l : ℕ} {cs : List Char} {d : Dec}
    {r : List Char} (h : parseExpTail s i f0 l cs = some (d, r)) : d.IsCanon := by
  unfold parseExpTail at h
  split at h
  · exact parseExpDigits_isCanon h
  · exact parseExpDigits_isCanon h
  · simp only [Option.some.injEq, Prod.mk.injEq] at h
    obtain ⟨rfl, rfl⟩ := h
    exact mkDecNum_isCanon _ _ _ _ _ _

theorem parseNumTail_isCanon {s : Bool} {i : ℕ} {cs : List Char} {d : Dec}
    {r : List Char} (h : parseNumTail s i cs = some (d, r)) : d.IsCanon := by
  unfold parseNumTail at h
  repeat' split at h
  all_goals first
    | exact Option.noConfusion h
    | exact parseExpTail_isCanon h

theorem parseNumBody_isCanon {s : Bool} {cs : List Char} {d : Dec}
    {r : List Char} (h : parseNumBody s cs = some (d, r)) : d.IsCanon := by
  unfold parseNumBody at h
  repeat' split at h
  all_goals first
    | exact Option.noConfusion h
    | exact parseNumTail_isCanon h

theorem parseNumber_isCanon {cs : List Char} {d : Dec} {r : List Char}
    (h : parseNumber cs = some (d, r)) : d.IsCanon := by
  unfold parseNumber at h
  split at h
  · exact parseNumBody_isCanon h
  · exact parseNumBody_isCanon h

theorem setKey_map_fst (ms : List (String × Json)) (k : String) (v : Json) :
    (setKey ms k v).map Prod.fst =
    if k ∈ ms.map Prod.fst then ms.map Prod.fst else ms.map Prod.fst ++ [k] := by
  induction ms with
  | nil => simp [setKey]
  | cons m ms ih =>
    obtain ⟨k0, v0⟩ := m
    show ((if k0 = k then (k0, v) :: ms else (k0, v0) :: setKey ms k v).map Prod.fst) = _
    by_cases hk : k0 = k
    · subst hk
      simp
    · rw [if_neg hk]
      simp only [List.map_cons, ih]
      by_cases hm : k ∈ ms.map Prod.fst
      · rw [if_pos hm, if_pos (by simp [hm])]
      · rw [if_neg hm, if_neg (by
          simp only [List.map_cons, List.mem_cons]
          push_neg
          exact ⟨fun he => hk he.symm, hm⟩)]
        rfl

theorem setKey_keys_nodup {ms : List (String × Json)} {k : String} {v : Json}
    (h : (ms.map Prod.fst).Nodup) : ((setKey ms k v).map Prod.fst).Nodup := by
  rw [setKey_map_fst]
  split
  · exact h
  next hm =>
    rw [List.nodup_append]
    refine ⟨h, List.nodup_singleton k, ?_⟩
    intro a ha ha2
    simp only [List.mem_singleton] at ha2
    subst ha2
    exact hm ha

theorem setKey_values_wf : ∀ (ms : List (String × Json)) (k : String) (v : Json),
    (∀ kv ∈ ms, WfJ kv.2) → WfJ v → ∀ kv ∈ setKey ms k v, WfJ kv.2 := by
  intro ms
  induction ms with
  | nil =>
    intro k v _ hv kv hkv
    simp only [setKey, List.mem_singleton] at hkv
    subst hkv
    exact hv
  | cons m ms ih =>
    intro k v hall hv kv hkv
    obtain ⟨k0, v0⟩ := m
    simp only [setKey] at hkv
    split at hkv
    · rcases List.mem_cons.mp hkv with rfl | hm
      · exact hv
      · exact hall kv (List.mem_cons_of_mem _ hm)
    · rcases List.mem_cons.mp hkv with rfl | hm
      · exact hall (k0, v0) (List.mem_cons_self _ _)
      · exact ih k v (fun z hz => hall z (List.mem_cons_of_mem _ hz)) hv kv hm

theorem foldl_setKey_nodup : ∀ (ms acc : List (String × Json)),
    (acc.map Prod.fst).Nodup →
    ((ms.foldl (fun a kv => setKey a kv.1 kv.2) acc).map Prod.fst).Nodup := by
  intro ms
  induction ms with
  | nil => intro acc h; exact h
  | cons m ms ih =>
    intro acc h
    exact ih (setKey acc m.1 m.2) (setKey_keys_nodup h)

theorem buildObj_keys_nodup (ms : List (String × Json)) :
    ((buildObj ms).map Prod.fst).Nodup :=
  foldl_setKey_nodup ms [] (by simp)

theorem foldl_setKey_wf : ∀ (ms acc : List (String × Json)),
    (∀ kv ∈ acc, WfJ kv.2) → (∀ kv ∈ ms, WfJ kv.2) →
    ∀ kv ∈ ms.foldl (fun a kv => setKey a kv.1 kv.2) acc, WfJ kv.2 := by
  intro ms
  induction ms with
  | nil => intro acc hacc _ kv hkv; exact hacc kv hkv
  | cons m ms ih =>
    intro acc hacc hall kv hkv
    exact ih (setKey acc m.1 m.2)
      (setKey_values_wf acc m.1 m.2 hacc (hall m (List.mem_cons_self _ _)))
      (fun z hz => hall z (List.mem_cons_of_mem _ hz)) kv hkv

theorem buildObj_wf (ms : List (String × Json)) (h : ∀ kv ∈ ms, WfJ kv.2) :
    ∀ kv ∈ buildObj ms, WfJ kv.2 :=
  foldl_setKey_wf ms [] (by simp) h

theorem WfJ_setField {j v : Json} {k : String} (hj : WfJ j) (hv : WfJ v) :
    WfJ (setField j k v) := by
  cases j with
  | obj ms =>
    rw [setField_obj_eq]
    cases hj with
    | obj _ hnd hall => exact WfJ.obj _ (setKey_keys_nodup hnd) (setKey_values_wf ms k v hall hv)
  | null => exact hj
  | bool b => exact hj
  | num d => exact hj
  | str s => exact hj
  | arr xs => exact hj

theorem dropWhile_head_not (p : Char → Bool) : ∀ (l : List Char) (a : Char) (t : List Char),
    l.dropWhile p = a :: t → p a = false := by
  intro l
  induction l with
  | nil =>
    intro a t h
    rw [List.dropWhile_nil] at h
    exact List.noConfusion h
  | cons c l ih =>
    intro a t h
    rw [List.dropWhile_cons] at h
    split at h
    · exact ih a t h
    next hpc =>
      injection h with h1 _
      subst h1
      simpa using hpc

theorem parse_wf : ∀ f : ℕ,
    (∀ (cs : List Char) (v : Json) (r : List Char),
      parseVal f cs = some (v, r) → WfJ v) ∧
    (∀ (cs : List Char) (xs : List Json) (r : List Char),
      parseElems f cs = some (xs, r) → ∀ x ∈ xs, WfJ x) ∧
    (∀ (cs : List Char) (ms : List (String × Json)) (r : List Char),
      parseMembers f cs = some (ms, r) → ∀ kv ∈ ms, WfJ kv.2) := by
  intro f
  induction f with
  | zero =>
    exact ⟨fun cs v r h => Option.noConfusion h,
      fun cs xs r h => Option.noConfusion h,
      fun cs ms r h => Option.noConfusion h⟩
  | succ f ih =>
    obtain ⟨ihV, ihE, ihM⟩ := ih
    refine ⟨?_, ?_, ?_⟩
    · intro cs v r h
      rcases hsk : skipWs cs with _ | ⟨c, t⟩
      · rw [parseVal_succ, hsk] at h
        exact Option.noConfusion h
      · have hws : wsChar c = false := dropWhile_head_not wsChar cs c t hsk
        rw [show parseVal (f+1) cs = parseVal (f+1) (c :: t) from by
            rw [parseVal_succ f cs, parseVal_succ f (c :: t), hsk, skipWs_cons hws],
          parseVal_step f c t hws] at h
        clear hsk
        by_cases hc1 : c = lbraceC
        · rw [if_pos hc1] at h
          rcases hsk2 : skipWs t with _ | ⟨d, t2⟩ <;> rw [hsk2] at h
          · exact Option.noConfusion h
          · have h3 : (if d = rbraceC then some (Json.obj [], t2)
                else match parseMembers f (d :: t2) with
                  | some (ms, r) => some (Json.obj (buildObj ms), r)
                  | none => none) = some (v, r) := h
            by_cases hd : d = rbraceC
            · rw [if_pos hd] at h3
              simp only [Option.some.injEq, Prod.mk.injEq] at h3
              obtain ⟨rfl, rfl⟩ := h3
              exact WfJ.obj [] (by simp) (by simp)
            · rw [if_neg hd] at h3
              rcases hpm : parseMembers f (d :: t2) with _ | ⟨ms', r'⟩ <;> rw [hpm] at h3
              · exact Option.noConfusion h3
              · have h4 : some (Json.obj (buildObj ms'), r') = some (v, r) := h3
                simp only [Option.some.injEq, Prod.mk.injEq] at h4
                obtain ⟨rfl, rfl⟩ := h4
                exact WfJ.obj _ (buildObj_keys_nodup ms') (buildObj_wf ms' (ihM _ _ _ hpm))
        · rw [if_neg hc1] at h
          by_cases hc2 : c = '['
          · rw [if_pos hc2] at h
            rcases hsk2 : skipWs t with _ | ⟨d, t2⟩ <;> rw [hsk2] at h
            · exact Option.noConfusion h
            · have h3 : (if d = ']' then some (Json.arr [], t2)
                  else match parseElems f (d :: t2) with
                    | some (xs, r) => some (Json.arr xs, r)
                    | none => none) = some (v, r) := h
              by_cases hd : d = ']'
              · rw [if_pos hd] at h3
                simp only [Option.some.injEq, Prod.mk.injEq] at h3
                obtain ⟨rfl, rfl⟩ := h3
                exact WfJ.arr [] (by simp)
              · rw [if_neg hd] at h3
                rcases hpe : parseElems f (d :: t2) with _ | ⟨xs', r'⟩ <;> rw [hpe] at h3
                · exact Option.noConfusion h3
                · have h4 : some (Json.arr xs', r') = some (v, r) := h3
                  simp only [Option.some.injEq, Prod.mk.injEq] at h4
                  obtain ⟨rfl, rfl⟩ := h4
                  exact WfJ.arr _ (ihE _ _ _ hpe)
          · rw [if_neg hc2] at h
            by_cases hc3 : c = '"'
            · rw [if_pos hc3] at h
              rcases hps : parseStringBody t with _ | ⟨s0, r'⟩ <;> rw [hps] at h
              · exact Option.noConfusion h
              · have h4 : some (Json.str (String.mk s0), r') = some (v, r) := h
                simp only [Option.some.injEq, Prod.mk.injEq] at h4
                obtain ⟨rfl, rfl⟩ := h4
                exact WfJ.str _
            · rw [if_neg hc3] at h
              by_cases hc4 : c = 't'
              · rw [if_pos hc4] at h
                split at h
                · simp only [Option.some.injEq, Prod.mk.injEq] at h
                  obtain ⟨rfl, rfl⟩ := h
                  exact WfJ.bool _
                · exact Option.noConfusion h
              · rw [if_neg hc4] at h
                by_cases hc5 : c = 'f'
                · rw [if_pos hc5] at h
                  split at h
                  · simp only [Option.some.injEq, Prod.mk.injEq] at h
                    obtain ⟨rfl, rfl⟩ := h
                    exact WfJ.bool _
                  · exact Option.noConfusion h
                · rw [if_neg hc5] at h
                  by_cases hc6 : c = 'n'
                  · rw [if_pos hc6] at h
                    split at h
                    · simp only [Option.some.injEq, Prod.mk.injEq] at h
                      obtain ⟨rfl, rfl⟩ := h
                      exact WfJ.null
                    · exact Option.noConfusion h
                  · rw [if_neg hc6] at h
                    rcases hpn : parseNumber (c :: t) with _ | ⟨q, r'⟩ <;> rw [hpn] at h
                    · exact Option.noConfusion h
                    · have h4 : some (Json.num q, r') = some (v, r) := h
                      simp only [Option.some.injEq, Prod.mk.injEq] at h4
                      obtain ⟨rfl, rfl⟩ := h4
                      exact WfJ.num _ (parseNumber_isCanon hpn)
    · intro cs xs r h
      rw [parseElems_succ] at h
      rcases hpv : parseVal f cs with _ | ⟨v, r1⟩ <;> rw [hpv] at h
      · exact Option.noConfusion h
      · have h2 : (match skipWs r1 with
            | [] => none
            | c :: t =>
              if c = ',' then
                match parseElems f t with
                | some (xs2, r2) => some (v :: xs2, r2)
                | none => none
              else if c = ']' then some ([v], t)
              else none) = some (xs, r) := h
        clear h
        rcases hsk : skipWs r1 with _ | ⟨c, t⟩ <;> rw [hsk] at h2
        · exact Option.noConfusion h2
        · have h3 : (if c = ',' then
              match parseElems f t with
              | some (xs2, r2) => some (v :: xs2, r2)
              | none => none
            else if c = ']' then some ([v], t)
            else none) = some (xs, r) := h2
          by_cases hc : c = ','
          · rw [if_pos hc] at h3
            rcases hpe : parseElems f t with _ | ⟨xs2, r2⟩ <;> rw [hpe] at h3
            · exact Option.noConfusion h3
            · have h4 : some (v :: xs2, r2) = some (xs, r) := h3
              simp only [Option.some.injEq, Prod.mk.injEq] at h4
              obtain ⟨rfl, rfl⟩ := h4
              intro x hx
              rcases List.mem_cons.mp hx with rfl | hx2
              · exact ihV _ _ _ hpv
              · exact ihE _ _ _ hpe x hx2
          · rw [if_neg hc] at h3
            by_cases hc2 : c = ']'
            · rw [if_pos hc2] at h3
              simp only [Option.some.injEq, Prod.mk.injEq] at h3
              obtain ⟨rfl, rfl⟩ := h3
              intro x hx
              simp only [List.mem_singleton] at hx
              subst hx
              exact ihV _ _ _ hpv
            · rw [if_neg hc2] at h3
              exact Option.noConfusion h3
    · intro cs ms r h
      rw [parseMembers_succ] at h
      rcases hsk : skipWs cs with _ | ⟨c, t⟩ <;> rw [hsk] at h
      · exact Option.noConfusion h
      · have h2 : (if c = '"' then
            match parseStringBody t with
            | some (k, r) =>
              match skipWs r with
              | [] => none
              | d :: t2 =>
                if d = ':' then
                  match parseVal f t2 with
                  | some (v, r2) =>
                    match skipWs r2 with
                    | [] => none
                    | e :: t3 =>
                      if e = ',' then
                        match parseMembers f t3 with
                        | some (ms2, r3) => some ((String.mk k, v) :: ms2, r3)
                        | none => none
                      else if e = rbraceC then some ([(String.mk k, v)], t3)
                      else none
                  | none => none
                else none
            | none => none
          else none) = some (ms, r) := h
        clear h
        by_cases hc : c = '"'
        · rw [if_pos hc] at h2
          rcases hps : parseStringBody t with _ | ⟨k0, r1⟩ <;> rw [hps] at h2
          · exact Option.noConfusion h2
          · have h3 : (match skipWs r1 with
                | [] => none
                | d :: t2 =>
                  if d = ':' then
                    match parseVal f t2 with
                    | some (v, r2) =>
                      match skipWs r2 with
                      | [] => none
                      | e :: t3 =>
                        if e = ',' then
                          match parseMembers f t3 with
                          | some (ms2, r3) => some ((String.mk k0, v) :: ms2, r3)
                          | none => none
                        else if e = rbraceC then some ([(String.mk k0, v)], t3)
                        else none
                    | none => none
                  else none) = some (ms, r) := h2
            clear h2
            rcases hsk2 : skipWs r1 with _ | ⟨d, t2⟩ <;> rw [hsk2] at h3
            · exact Option.noConfusion h3
            · have h4 : (if d = ':' then
                  match parseVal f t2 with
                  | some (v, r2) =>
                    match skipWs r2 with
                    | [] => none
                    | e :: t3 =>
                      if e = ',' then
                        match parseMembers f t3 with
                        | some (ms2, r3) => some ((String.mk k0, v) :: ms2, r3)
                        | none => none
                      else if e = rbraceC then some ([(String.mk k0, v)], t3)
                      else none
                  | none => none
                else none) = some (ms, r) := h3
              clear h3
              by_cases hd : d = ':'
              · rw [if_pos hd] at h4
                rcases hpv : parseVal f t2 with _ | ⟨v, r2⟩ <;> rw [hpv] at h4
                · exact Option.noConfusion h4
                · have h5 : (match skipWs r2 with
                      | [] => none
                      | e :: t3 =>
                        if e = ',' then
                          match parseMembers f t3 with
                          | some (ms2, r3) => some ((String.mk k0, v) :: ms2, r3)
                          | none => none
                        else if e = rbraceC then some ([(String.mk k0, v)], t3)
                        else none) = some (ms, r) := h4
                  clear h4
                  rcases hsk3 : skipWs r2 with _ | ⟨e, t3⟩ <;> rw [hsk3] at h5
                  · exact Option.noConfusion h5
                  · have h6 : (if e = ',' then
                        match parseMembers f t3 with
                        | some (ms2, r3) => some ((String.mk k0, v) :: ms2, r3)
                        | none => none
                      else if e = rbraceC then some ([(String.mk k0, v)], t3)
                      else none) = some (ms, r) := h5
                    clear h5
                    by_cases he : e = ','
                    · rw [if_pos he] at h6
                      rcases hpm : parseMembers f t3 with _ | ⟨ms2, r3⟩ <;> rw [hpm] at h6
                      · exact Option.noConfusion h6
                      · have h7 : some ((String.mk k0, v) :: ms2, r3) = some (ms, r) := h6
                        simp only [Option.some.injEq, Prod.mk.injEq] at h7
                        obtain ⟨rfl, rfl⟩ := h7
                        intro kv hkv
                        rcases List.mem_cons.mp hkv with rfl | hm
                        · exact ihV _ _ _ hpv
                        · exact ihM _ _ _ hpm kv hm
                    · rw [if_neg he] at h6
                      by_cases he2 : e = rbraceC
                      · rw [if_pos he2] at h6
                        simp only [Option.some.injEq, Prod.mk.injEq] at h6
                        obtain ⟨rfl, rfl⟩ := h6
                        intro kv hkv
                        simp only [List.mem_singleton] at hkv
                        subst hkv
                        exact ihV _ _ _ hpv
                      · rw [if_neg he2] at h6
                        exact Option.noConfusion h6
              · rw [if_neg hd] at h4
                exact Option.noConfusion h4
        · rw [if_neg hc] at h2
          exact Option.noConfusion h2

theorem parseJsonCh_wf {cs : List Char} {v : Json} (h : parseJsonCh cs = some v) :
    WfJ v := by
  unfold parseJsonCh at h
  rcases hpv : parseVal (2 * cs.length + 4) cs with _ | ⟨v', r'⟩ <;> rw [hpv] at h
  · exact Option.noConfusion h
  · have h2 : (if skipWs r' = [] then some v' else none) = some v := h
    split at h2
    · obtain rfl := Option.some.inj h2
      exact (parse_wf _).1 _ _ _ hpv
    · exact Option.noConfusion h2

theorem sizeJ_pos (v : Json) : 1 ≤ sizeJ v := by
  cases v <;> simp only [sizeJ] <;> omega

theorem size_le_len : ∀ n : ℕ,
    (∀ v : Json, sizeJ v ≤ n → sizeJ v ≤ (serJson v).length) ∧
    (∀ xs : List Json, sizeA xs ≤ n → sizeA xs ≤ (serElems xs).length + 1) ∧
    (∀ ms : List (String × Json), sizeM ms ≤ n → sizeM ms ≤ (serMembers ms).length + 1) := by
  intro n
  induction n with
  | zero =>
    refine ⟨fun v h => absurd (sizeJ_pos v) (by omega), fun xs h => by omega,
      fun ms h => by omega⟩
  | succ n ih =>
    obtain ⟨ihJ, ihA, ihM⟩ := ih
    refine ⟨?_, ?_, ?_⟩
    · intro v hv
      cases v with
      | null => decide
      | bool b => cases b <;> decide
      | num d =>
        obtain ⟨c, t, hct, _⟩ := serNum_head d
        have e1 : sizeJ (.num d) = 1 := rfl
        rw [e1, show serJson (.num d) = c :: t from hct]
        simp
      | str s =>
        have e1 : sizeJ (.str s) = 1 := rfl
        rw [e1]
        show 1 ≤ ('"' :: (escapeList s.data ++ ['"'])).length
        simp
      | arr xs =>
        have e : sizeJ (.arr xs) = 1 + sizeA xs := rfl
        have h1 : sizeA xs ≤ n := by omega
        have h2 := ihA xs h1
        have e2 : (serJson (.arr xs)).length = (serElems xs).length + 2 := by
          show ('[' :: (serElems xs ++ [']'])).length = _
          simp
        omega
      | obj ms =>
        have e : sizeJ (.obj ms) = 1 + sizeM ms := rfl
        have h1 : sizeM ms ≤ n := by omega
        have h2 := ihM ms h1
        have e2 : (serJson (.obj ms)).length = (serMembers ms).length + 2 := by
          show (lbraceC :: (serMembers ms ++ [rbraceC])).length = _
          simp
        omega
    · intro xs hxs
      cases xs with
      | nil => decide
      | cons x xs =>
        have e : sizeA (x :: xs) = 1 + sizeJ x + sizeA xs := rfl
        have h1 : sizeJ x ≤ n := by omega
        have h2 : sizeA xs ≤ n := by omega
        have g1 := ihJ x h1
        cases xs with
        | nil =>
          show sizeA [x] ≤ (serJson x).length + 1
          have e' : sizeA [x] = 1 + sizeJ x + 0 := rfl
          omega
        | cons y ys =>
          have g2 := ihA (y :: ys) h2
          have e2 : (serElems (x :: y :: ys)).length =
              (serJson x).length + 1 + (serElems (y :: ys)).length := by
            show (serJson x ++ ',' :: serElems (y :: ys)).length = _
            simp only [List.length_append, List.length_cons]
            omega
          omega
    · intro ms hms
      cases ms with
      | nil => decide
      | cons kv ms =>
        obtain ⟨k, v⟩ := kv
        have e : sizeM ((k, v) :: ms) = 1 + sizeJ v + sizeM ms := rfl
        have e0 : sizeM ([] : List (String × Json)) = 0 := rfl
        have h1 : sizeJ v ≤ n := by omega
        have h2 : sizeM ms ≤ n := by omega
        have g1 := ihJ v h1
        cases ms with
        | nil =>
          have e2 : (serMembers [(k, v)]).length =
              (serString k).length + 1 + (serJson v).length := by
            show (serString k ++ ':' :: serJson v).length = _
            simp only [List.length_append, List.length_cons]
            omega
          omega
        | cons kv2 ms2 =>
          have g2 := ihM (kv2 :: ms2) h2
          have e2 : (serMembers ((k, v) :: kv2 :: ms2)).length =
              (serString k).length + 1 + (serJson v).length + 1 +
                (serMembers (kv2 :: ms2)).length := by
            show (serString k ++ ':' :: serJson v ++ ',' :: serMembers (kv2 :: ms2)).length = _
            simp only [List.length_append, List.length_cons]
            omega
          omega

theorem sizeJ_le_length (v : Json) : sizeJ v ≤ (serJson v).length :=
  (size_le_len (sizeJ v)).1 v le_rfl

theorem parse_ser_self (v : Json) (hw : WfJ v) : parseJsonCh (serJson v) = some v := by
  have hsz : sizeJ v < 2 * (serJson v).length + 4 := by
    have := sizeJ_le_length v
    omega
  have h1 := (parse_ser (2 * (serJson v).length + 4)).1 v [] hw hsz (Or.inl rfl)
  rw [List.append_nil] at h1
  unfold parseJsonCh
  rw [h1]
  rfl

theorem extractSpan_wrap (mid : List Char) :
    extractSpan (lbraceC :: (mid ++ [rbraceC])) = some (lbraceC :: (mid ++ [rbraceC])) := by
  have h1 : (lbraceC :: (mid ++ [rbraceC])).dropWhile (· != lbraceC) =
      lbraceC :: (mid ++ [rbraceC]) := by
    rw [List.dropWhile_cons]
    simp
  have h2 : (lbraceC :: (mid ++ [rbraceC])).reverse.dropWhile (· != rbraceC) =
      (lbraceC :: (mid ++ [rbraceC])).reverse := by
    rw [show (lbraceC :: (mid ++ [rbraceC])).reverse =
        rbraceC :: (mid.reverse ++ [lbraceC]) from by simp]
    rw [List.dropWhile_cons]
    simp
  show (match (lbraceC :: (mid ++ [rbraceC])).dropWhile (· != lbraceC) with
        | [] => none
        | l₀ =>
          match (l₀.reverse.dropWhile (· != rbraceC)).reverse with
          | [] => none
          | r₀ => some r₀) = some (lbraceC :: (mid ++ [rbraceC]))
  rw [h1]
  show (match ((lbraceC :: (mid ++ [rbraceC])).reverse.dropWhile (· != rbraceC)).reverse with
        | [] => none
        | r₀ => some r₀) = some (lbraceC :: (mid ++ [rbraceC]))
  rw [h2, List.reverse_reverse]

theorem extractSpan_head {cs sp : List Char} (h : extractSpan cs = some sp) :
    ∃ t, sp = lbraceC :: t := by
  unfold extractSpan at h
  rcases hdw : cs.dropWhile (· != lbraceC) with _ | ⟨a, l⟩ <;> rw [hdw] at h
  · exact Option.noConfusion h
  · have ha : a = lbraceC := by
      have := dropWhile_head_not (· != lbraceC) cs a l hdw
      simpa using this
    subst ha
    have h2 : (match ((lbraceC :: l).reverse.dropWhile (· != rbraceC)).reverse with
        | [] => none
        | r₀ => some r₀) = some sp := h
    rcases hrv : ((lbraceC :: l).reverse.dropWhile (· != rbraceC)).reverse with _ | ⟨b, m⟩ <;>
      rw [hrv] at h2
    · exact Option.noConfusion h2
    · have h3 : some (b :: m) = some sp := h2
      obtain rfl := Option.some.inj h3
      have hu : (lbraceC :: l).reverse.takeWhile (· != rbraceC) ++
          (lbraceC :: l).reverse.dropWhile (· != rbraceC) = (lbraceC :: l).reverse :=
        List.takeWhile_append_dropWhile (· != rbraceC) (lbraceC :: l).reverse
      have hrev := congrArg List.reverse hu
      rw [List.reverse_append, List.reverse_reverse, hrv] at hrev
      have h4 : b :: (m ++ ((lbraceC :: l).reverse.takeWhile (· != rbraceC)).reverse) =
          lbraceC :: l := hrev
      injection h4 with h5 _
      subst h5
      exact ⟨m, rfl⟩

theorem parseVal_lbrace : ∀ (f : ℕ) (t : List Char) (v : Json) (r : List Char),
    parseVal f (lbraceC :: t) = some (v, r) → ∃ ms, v = .obj ms := by
  intro f t v r h
  cases f with
  | zero => exact Option.noConfusion h
  | succ f =>
    rw [parseVal_step f lbraceC t (by decide), if_pos rfl] at h
    rcases hsk : skipWs t with _ | ⟨d, t2⟩ <;> rw [hsk] at h
    · exact Option.noConfusion h
    · have h2 : (if d = rbraceC then some (Json.obj [], t2)
          else match parseMembers f (d :: t2) with
            | some (ms, r) => some (Json.obj (buildObj ms), r)
            | none => none) = some (v, r) := h
      by_cases hd : d = rbraceC
      · rw [if_pos hd] at h2
        simp only [Option.some.injEq, Prod.mk.injEq] at h2
        exact ⟨[], h2.1.symm⟩
      · rw [if_neg hd] at h2
        rcases hpm : parseMembers f (d :: t2) with _ | ⟨ms', r'⟩ <;> rw [hpm] at h2
        · exact Option.noConfusion h2
        · have h3 : some (Json.obj (buildObj ms'), r') = some (v, r) := h2
          simp only [Option.some.injEq, Prod.mk.injEq] at h3
          exact ⟨buildObj ms', h3.1.symm⟩

theorem parseJsonCh_obj {t : List Char} {v : Json}
    (h : parseJsonCh (lbraceC :: t) = some v) : ∃ ms, v = .obj ms := by
  unfold parseJsonCh at h
  rcases hpv : parseVal (2 * (lbraceC :: t).length + 4) (lbraceC :: t) with _ | ⟨v', r'⟩ <;>
    rw [hpv] at h
  · exact Option.noConfusion h
  · have h2 : (if skipWs r' = [] then some v' else none) = some v := h
    split at h2
    · have hv := parseVal_lbrace _ _ _ _ hpv
      rwa [Option.some.inj h2] at hv
    · exact Option.noConfusion h2

theorem backfill_obj {ms0 : List (String × Json)} {y : Json}
    (h : backfill (.obj ms0) = some y) : ∃ ms', y = .obj ms' := by
  rcases hit : getField (.obj ms0) "items" with _ | v0
  · rw [backfill_not_arr (by intro its hh; rw [hit] at hh; simp at hh)] at h
    exact ⟨ms0, (Option.some.inj h).symm⟩
  · cases v0 with
    | arr its =>
      by_cases hok : labelsOk its = true
      · have hB := backfill_arr2 hit hok _ _ rfl rfl
        split at hB <;> split at hB <;> split at hB <;>
          ((try simp only [setField_obj_eq] at hB)
           rw [hB] at h
           exact ⟨_, (Option.some.inj h).symm⟩)
      · rw [backfill_labels_bad hit (by simpa using hok)] at h
        exact Option.noConfusion h
    | null =>
      rw [backfill_not_arr (by intro its hh; rw [hit] at hh; simp at hh)] at h
      exact ⟨ms0, (Option.some.inj h).symm⟩
    | bool b =>
      rw [backfill_not_arr (by intro its hh; rw [hit] at hh; simp at hh)] at h
      exact ⟨ms0, (Option.some.inj h).symm⟩
    | num d =>
      rw [backfill_not_arr (by intro its hh; rw [hit] at hh; simp at hh)] at h
      exact ⟨ms0, (Option.some.inj h).symm⟩
    | str s =>
      rw [backfill_not_arr (by intro its hh; rw [hit] at hh; simp at hh)] at h
      exact ⟨ms0, (Option.some.inj h).symm⟩
    | obj ms1 =>
      rw [backfill_not_arr (by intro its hh; rw [hit] at hh; simp at hh)] at h
      exact ⟨ms0, (Option.some.inj h).symm⟩

theorem backfill_wf {j y : Json} (hw : WfJ j) (hb : backfill j = some y) : WfJ y := by
  by_cases hArr : ∃ its, getField j "items" = some (.arr its)
  · obtain ⟨its, hit⟩ := hArr
    obtain ⟨ms, rfl⟩ := getField_some_obj hit
    by_cases hok : labelsOk its = true
    · have hB := backfill_arr2 hit hok _ _ rfl rfl
      split at hB <;> split at hB <;> split at hB <;>
        (rw [hB] at hb
         obtain rfl := Option.some.inj hb
         repeat' first
           | exact hw
           | refine WfJ_setField ?_ (WfJ.num _ (Or.inl rfl)))
    · rw [backfill_labels_bad hit (by simpa using hok)] at hb
      exact Option.noConfusion hb
  · have hj : backfill j = some j := backfill_not_arr (fun its hh => hArr ⟨its, hh⟩)
    rw [hj] at hb
    obtain rfl := Option.some.inj hb
    exact hw

theorem backfill_idem {j y : Json} (hb : backfill j = some y) : backfill y = some y := by
  by_cases hArr : ∃ its, getField j "items" = some (.arr its)
  · obtain ⟨its, hit⟩ := hArr
    obtain ⟨ms, rfl⟩ := getField_some_obj hit
    by_cases hok : labelsOk its = true
    · obtain ⟨y', hB, hW, hH, hT, hO⟩ := backfill_fields hit hok
      rw [hB] at hb
      obtain rfl := Option.some.inj hb
      have F1 : getField y' "items" = some (.arr its) := by
        rw [hO "items" (by decide) (by decide) (by decide)]
        exact hit
      have F3 : nullish (getField y' "weedCoverage") = false := by
        rw [hW]
        split
        · rfl
        next hn => simpa using hn
      have F4 : nullish (getField y' "healthyCropCoverage") = false := by
        rw [hH]
        split
        · rfl
        next hn => simpa using hn
      have F5 : nullish (getField y' "totalArea") = false := by
        rw [hT]
        split
        · rfl
        next hn => simpa using hn
      rw [backfill_arr F1 hok]
      simp [F3, F4, F5]
    · rw [backfill_labels_bad hit (by simpa using hok)] at hb
      exact Option.noConfusion hb
  · have hj : backfill j = some j := backfill_not_arr (fun its hh => hArr ⟨its, hh⟩)
    rw [hj] at hb
    obtain rfl := Option.some.inj hb
    exact hj

theorem wfJ_fallback_full : WfJ (Json.obj [("items", Json.arr []),
    ("weedCoverage", Json.num (Dec.ofInt 0)),
    ("healthyCropCoverage", Json.num (Dec.ofInt 100)),
    ("recommendations", Json.arr [Json.str "Unable to analyze image details"]),
    ("totalArea", Json.num (Dec.ofInt 100))]) := by
  refine WfJ.obj _ (by decide) ?_
  intro kv hkv
  simp only [List.mem_cons, List.not_mem_nil, or_false] at hkv
  rcases hkv with rfl | rfl | rfl | rfl | rfl
  · exact WfJ.arr _ (fun x hx => absurd hx (List.not_mem_nil x))
  · exact WfJ.num _ (Or.inl rfl)
  · exact WfJ.num _ (Or.inl rfl)
  · refine WfJ.arr _ ?_
    intro x hx
    simp only [List.mem_cons, List.not_mem_nil, or_false] at hx
    subst hx
    exact WfJ.str _
  · exact WfJ.num _ (Or.inl rfl)

theorem normalizeResult_cases {s : String} {y : Json} (h : normalizeResult s = some y) :
    (∃ ms, y = .obj ms) ∧ WfJ y ∧ backfill y = some y := by
  unfold normalizeResult at h
  rcases hsp : extractSpan s.data with _ | sp <;> rw [hsp] at h
  · have h2 : backfill fallbackData = some y := h
    rw [show backfill fallbackData = some (Json.obj [("items", Json.arr []),
        ("weedCoverage", Json.num (Dec.ofInt 0)),
        ("healthyCropCoverage", Json.num (Dec.ofInt 100)),
        ("recommendations", Json.arr [Json.str "Unable to analyze image details"]),
        ("totalArea", Json.num (Dec.ofInt 100))]) from rfl] at h2
    obtain rfl := Option.some.inj h2
    exact ⟨⟨_, rfl⟩, wfJ_fallback_full, rfl⟩
  · have h2 : (match parseJsonCh sp with
        | some p => backfill p
        | none => none) = some y := h
    rcases hpj : parseJsonCh sp with _ | p <;> rw [hpj] at h2
    · exact Option.noConfusion h2
    · have h3 : backfill p = some y := h2
      obtain ⟨t, rfl⟩ := extractSpan_head hsp
      obtain ⟨msp, rfl⟩ := parseJsonCh_obj hpj
      obtain ⟨msy, hy⟩ := backfill_obj h3
      have hwp : WfJ (Json.obj msp) := parseJsonCh_wf hpj
      exact ⟨⟨msy, hy⟩, backfill_wf hwp h3, backfill_idem h3⟩

/-- C7: the normaliser is idempotent on its own serialised output: whenever
normalisation of a raw text succeeds with payload y, normalising the
serialisation of y returns exactly y again. -/
theorem c7_normalize_idempotent (s : String) (y : Json)
    (h : normalizeResult s = some y) :
    normalizeResult (serializeJson y) = some y := by
  obtain ⟨⟨ms, rfl⟩, hw, hfix⟩ := normalizeResult_cases h
  show (match extractSpan (serializeJson (Json.obj ms)).data with
        | some sp =>
          match parseJsonCh sp with
          | some p => backfill p
          | none => none
        | none => backfill fallbackData) = some (Json.obj ms)
  rw [show (serializeJson (Json.obj ms)).data =
      lbraceC :: (serMembers ms ++ [rbraceC]) from rfl]
  rw [extractSpan_wrap (serMembers ms)]
  show (match parseJsonCh (lbraceC :: (serMembers ms ++ [rbraceC])) with
        | some p => backfill p
        | none => none) = some (Json.obj ms)
  rw [show (lbraceC : Char) :: (serMembers ms ++ [rbraceC]) = serJson (Json.obj ms) from rfl]
  rw [parse_ser_self (Json.obj ms) hw]
  exact hfix

theorem c7_normalize_idempotent_witness :
    normalizeResult "\x7b\"a\":1\x7d" = some (Json.obj [("a", Json.num ⟨1, 0⟩)]) ∧
    normalizeResult (serializeJson (Json.obj [("a", Json.num ⟨1, 0⟩)])) =
      some (Json.obj [("a", Json.num ⟨1, 0⟩)]) :=
  ⟨rfl, c7_normalize_idempotent "\x7b\"a\":1\x7d" (Json.obj [("a", Json.num ⟨1, 0⟩)]) rfl⟩
